import Mathlib

/-!
Verification of the yoda-clienttools repository's CSV group-import,
name-validation and reporting logic, via a shallow embedding of the Python
source (src/yclienttools) into Lean.

Conventions of the embedding:
* Python strings are Lean `String`s; where character-level reasoning is
  needed we work on `String.data : List Char`.
* Python `str.strip()` is embedded as trimming ASCII whitespace from both
  ends (the rare Unicode space characters Python additionally strips do not
  occur in any of the verified properties).
* Python `str.lower()` is embedded as `Char.toLower` on every character
  (correct for the ASCII data these tools process).
* Python string comparison (`<=` on `str`) is lexicographic on code points;
  it is embedded by `pyStrLt` / `pyStrLe` below.
* Python dictionaries are embedded as insertion-ordered association lists
  with unique keys; `d[k] = v` keeps the position of an existing key and
  appends a fresh one, exactly like a CPython dict.
* Fallible code paths (exceptions, `sys.exit`) are embedded with
  `Option` / `Except` or explicit outcome constructors.
-/

/-! ## Python string primitives -/

/-- ASCII whitespace characters stripped by Python `str.strip()`. -/
def pyIsSpace (c : Char) : Bool :=
  c = ' ' || c = '\t' || c = '\n' || c = '\r' || c = '\x0b' || c = '\x0c'

/-- Python `str.strip()`: remove whitespace from both ends. -/
def pyStrip (s : String) : String :=
  ⟨(s.data.dropWhile pyIsSpace).reverse.dropWhile pyIsSpace |>.reverse⟩

/-- Python `str.lower()` (ASCII case folding). -/
def pyLower (s : String) : String :=
  ⟨s.data.map Char.toLower⟩

/-- Scan for `needle` as a contiguous sublist of `hay`. -/
def charsContain (needle : List Char) : List Char → Bool
  | [] => needle.isEmpty
  | c :: rest => needle.isPrefixOf (c :: rest) || charsContain needle rest

/-- Python `needle in haystack` on strings: substring containment. -/
def pyIn (needle haystack : String) : Bool :=
  charsContain needle.data haystack.data

/-- Python `str.replace(".", "")`: drop every dot. -/
def pyRemoveDots (s : String) : String :=
  ⟨s.data.filter (fun c => c ≠ '.')⟩

/-- Python string `<` (lexicographic comparison of code points). -/
def pyLtChars : List Char → List Char → Bool
  | [], [] => false
  | [], _ :: _ => true
  | _ :: _, [] => false
  | a :: as, b :: bs => if a < b then true else if b < a then false else pyLtChars as bs

/-- Python string `s < t`. -/
def pyStrLt (s t : String) : Bool := pyLtChars s.data t.data

/-- Python string `s <= t` (total order, so `s <= t` iff `not (t < s)`). -/
def pyStrLe (s t : String) : Bool := !(pyStrLt t s)

/-! ## yoda_names.py -/

/-- `yoda_names.is_email`: `re.search(r"@.*[^\.]+\.[^\.]+$", username)`.
The pattern is anchored at the end of the string, so a match exists iff the
string has a last dot that is neither the first nor the last character, the
character right before this dot is not a dot, and some `@` occurs at least
two positions before it (so that the mandatory non-dot character and the
dot both come after the `@`).  This executable form scans the reversed
character list: the suffix after the last dot must be non-empty and
dot-free, then the dot, then at least one non-dot char, then an `@`
anywhere further left. -/
def is_email (username : String) : Bool :=
  goEmail (username.data.reverse)
where
  /-- consume the (reversed) final `[^.]+` segment, then require `.`,
      then `[^.]+` containing or followed by an `@` further left. -/
  goEmail : List Char → Bool
    | [] => false
    | c :: rest =>
      if c = '.' then false
      else afterLastDotRev rest 1
  /-- `seen` counts non-dot chars consumed after (to the right of) the last
      dot; we still look for the dot. -/
  afterLastDotRev : List Char → Nat → Bool
    | [], _ => false
    | c :: rest, seen =>
      if c = '.' then beforeDotRev rest
      else afterLastDotRev rest (seen + 1)
  /-- we are left of the last dot (reversed): need one non-dot char
      immediately left of the dot, and an `@` somewhere further left;
      the `@` may not be the character immediately before the dot. -/
  beforeDotRev : List Char → Bool
    | [] => false
    | c :: rest =>
      if c = '.' then false
      else rest.contains '@'

/-- `yoda_names.is_valid_username`.  The DNS MX lookup performed by
`is_valid_domain` is an external effect; it is a parameter `domainOk` of
the embedding.  Returns the `(valid, error message)` pair of the source. -/
def is_valid_username (domainOk : String → Bool) (username : String)
    (no_validate_domains : Bool) : Bool × Option String :=
  if username = "" then (true, none)
  else if !is_email username then
    (false, some ("Username \"" ++ username ++ "\" is not a valid email address."))
  else if !(no_validate_domains || domainOk (((username.splitOn "@").getD 1 ""))) then
    (false, some ("Username \"" ++ username ++
      "\" failed DNS domain validation - domain does not exist or has no MX records."))
  else (true, none)

/-- `yoda_names.is_valid_category`: `^[a-zA-Z0-9\-_]+$`. -/
def is_valid_category (name : String) : Bool :=
  !name.data.isEmpty && name.data.all (fun c => c.isAlphanum || c = '-' || c = '_')

/-- `yoda_names.is_valid_groupname`: `^[a-zA-Z0-9\-]+$`. -/
def is_valid_groupname (name : String) : Bool :=
  !name.data.isEmpty && name.data.all (fun c => c.isAlphanum || c = '-')

/-- `yoda_names.is_valid_schema_id`: `""` is valid, otherwise
`^[a-zA-Z0-9\-]+\-[0-9]+$`: the segment after the last dash must be a
non-empty digit string, and everything before the last dash a non-empty
string over `[a-zA-Z0-9-]`. -/
def is_valid_schema_id (schema_id : String) : Bool :=
  if schema_id = "" then true
  else
    let parts := schema_id.data.reverse
    let digits := parts.takeWhile Char.isDigit
    let rest := parts.dropWhile Char.isDigit
    match rest with
    | [] => false
    | c :: before =>
      !digits.isEmpty && c = '-' && !before.isEmpty &&
        before.all (fun c => c.isAlphanum || c = '-')

/-! ### Dates: `is_valid_expiration_date`

`datetime.strptime(s, "%Y-%m-%d")` matches `%Y` against exactly four
digits, `%m` against `1[0-2]|0[1-9]|[1-9]` and `%d` against
`3[01]|[12]\d|0[1-9]|[1-9]`, separated by literal dashes, consuming the
whole string; the resulting `datetime(y, m, d)` constructor additionally
requires `1 <= y` and `d` at most the length of month `m` of year `y`.
`strftime("%Y-%m-%d")` on Linux/glibc prints the year without zero
padding and zero-pads month and day to two digits. -/

/-- Split a character list on `'-'` (the dash-separated fields of the
`%Y-%m-%d` pattern). -/
def splitOnDash : List Char → List (List Char)
  | [] => [[]]
  | c :: rest =>
    if c = '-' then [] :: splitOnDash rest
    else
      match splitOnDash rest with
      | [] => [[c]]
      | p :: ps => (c :: p) :: ps

/-- Numeric value of a digit string. -/
def digitsToNat (l : List Char) : Nat :=
  l.foldl (fun acc c => acc * 10 + (c.toNat - 48)) 0

/-- Gregorian leap year. -/
def isLeapYear (y : Nat) : Bool :=
  y % 4 = 0 && (y % 100 ≠ 0 || y % 400 = 0)

/-- Length of month `m` of year `y`. -/
def daysInMonth (y m : Nat) : Nat :=
  if m = 2 then (if isLeapYear y then 29 else 28)
  else if m = 4 || m = 6 || m = 9 || m = 11 then 30
  else 31

/-- `datetime.strptime(s, "%Y-%m-%d")` as far as it matters here: either
the parsed `(year, month, day)` or `none` for the `ValueError` path. -/
def strptimeYmd (s : String) : Option (Nat × Nat × Nat) :=
  match splitOnDash s.data with
  | [ys, ms, ds] =>
    let y := digitsToNat ys
    let m := digitsToNat ms
    let d := digitsToNat ds
    if ys.all Char.isDigit && ys.length = 4 && 1 ≤ y &&
        ms.all Char.isDigit && 1 ≤ ms.length && ms.length ≤ 2 && 1 ≤ m && m ≤ 12 &&
        ds.all Char.isDigit && 1 ≤ ds.length && ds.length ≤ 2 && 1 ≤ d &&
        d ≤ daysInMonth y m
    then some (y, m, d) else none
  | _ => none

/-- Two-digit zero-padded field (`%m`, `%d`). -/
def pad2 (n : Nat) : List Char :=
  [Nat.digitChar (n / 10 % 10), Nat.digitChar (n % 10)]

/-- Four decimal digits of a year below 10000. -/
def pad4 (n : Nat) : List Char :=
  [Nat.digitChar (n / 1000 % 10), Nat.digitChar (n / 100 % 10),
   Nat.digitChar (n / 10 % 10), Nat.digitChar (n % 10)]

/-- glibc `%Y`: the year printed without zero padding (years of the tools'
data are below 10000, as enforced by `datetime.MAXYEAR`). -/
def glibcYear (y : Nat) : List Char :=
  match (pad4 y).dropWhile (fun c => c = '0') with
  | [] => ['0']
  | l => l

/-- `datetime(y, m, d).strftime("%Y-%m-%d")` on Linux. -/
def strftimeYmd (y m d : Nat) : String :=
  ⟨glibcYear y ++ '-' :: pad2 m ++ '-' :: pad2 d⟩

/-- `yoda_names.is_valid_expiration_date`.  The validation time
(`datetime.now().strftime("%Y-%m-%d")`) is the parameter `today`. -/
def is_valid_expiration_date (today : String) (expiration_date : String) : Bool :=
  if expiration_date = "" || expiration_date = "." then true
  else
    match strptimeYmd expiration_date with
    | none => false
    | some (y, m, d) =>
      if expiration_date ≠ strftimeYmd y m d then false
      else if pyStrLe expiration_date today then false
      else true

/-! ## C9: empty username is always accepted -/

/-- C9: `is_valid_username` called on the empty string returns
`(True, None)` for every value of the `no_validate_domains` flag and any
DNS behaviour: an empty username is accepted without any email-format or
domain validation. -/
theorem C9_empty_username_accepted :
    ∀ (domainOk : String → Bool) (no_validate_domains : Bool),
      is_valid_username domainOk "" no_validate_domains = (true, none) := by
  intro domainOk nvd
  rfl

/-! ## importgroups.py: header labels and duplicate columns -/

/-- `importgroups._get_csv_possible_labels`. -/
def _get_csv_possible_labels (yoda_version : String) : List String :=
  if yoda_version = "1.7" || yoda_version = "1.8" then
    ["category", "subcategory", "groupname", "viewer", "member", "manager"]
  else
    ["category", "subcategory", "groupname", "viewer", "member", "manager",
     "expiration_date", "schema_id"]

/-- `importgroups._get_csv_required_labels`. -/
def _get_csv_required_labels : List String :=
  ["category", "subcategory", "groupname"]

/-- `importgroups._get_csv_1_9_exclusive_labels`. -/
def _get_csv_1_9_exclusive_labels : List String :=
  ["expiration_date", "schema_id"]

/-- `importgroups._get_csv_predefined_labels`. -/
def _get_csv_predefined_labels (yoda_version : String) : List String :=
  if yoda_version = "1.7" || yoda_version = "1.8" then
    ["category", "subcategory", "groupname"]
  else
    ["category", "subcategory", "groupname", "expiration_date", "schema_id"]

/-- Python `set.add`: a set embedded as a duplicate-free list. -/
def setInsert (s : List String) (x : String) : List String :=
  if x ∈ s then s else s ++ [x]

/-- The loop of `importgroups._get_duplicate_columns` over the header
fields, carrying the `fields_seen` and `duplicate_fields` sets. -/
def dupColsGo (predef : List String) :
    List String → List String → List String → List String
  | [], _, dups => dups
  | f :: rest, seen, dups =>
    if f ∈ predef then
      if f ∈ seen then dupColsGo predef rest seen (setInsert dups f)
      else dupColsGo predef rest (setInsert seen f) dups
    else dupColsGo predef rest seen dups

/-- `importgroups._get_duplicate_columns` (result is a set: membership is
the meaningful notion). -/
def _get_duplicate_columns (fields_list : List String) (yoda_version : String) :
    List String :=
  dupColsGo (_get_csv_predefined_labels yoda_version) fields_list [] []

/-! ## importgroups.py: group creation status handling (apply_data) -/

/-- Python truthiness of a non-empty tuple: always `True`.  The condition
on line 235 of importgroups.py,
`((status in '-1089000', '-809000', '-806000'))`, parses as the 3-tuple
`(status in '-1089000', '-809000', '-806000')`, which is non-empty and
hence truthy regardless of `status`. -/
def pyNonEmptyTupleTruthy (_ : Bool × String × String) : Bool := true

/-- Outcome of the group-creation step of `apply_data` for one row. -/
inductive CreationOutcome where
  /-- `status == '0'` without `--allow-update`: the group was created and
      is marked `new_group`. -/
  | created
  /-- the already-exists warning branch: the row proceeds, the group is
      not marked new. -/
  | tolerated
  /-- `_exit_with_error`: prints the error and calls `sys.exit(1)`,
      terminating the whole script. -/
  | fatalExit
deriving DecidableEq, Repr

/-- Lines 232-248 of `importgroups.apply_data`: how the `(status, msg)`
pair returned by `call_uuGroupAdd` is handled, as a function of the status
string and the `--allow-update` flag. -/
def groupAddStatusOutcome (status : String) (allow_update : Bool) : CreationOutcome :=
  if pyNonEmptyTupleTruthy (pyIn status "-1089000", "-809000", "-806000")
      && allow_update then
    CreationOutcome.tolerated
  else if status ≠ "0" then CreationOutcome.fatalExit
  else CreationOutcome.created

/-- The group-creation phase of `apply_data` over the successive rows,
given each row's group name and the status `call_uuGroupAdd` returns for
it.  A `fatalExit` outcome terminates the script (`sys.exit(1)`), so no
later row is processed. -/
def creationPhase (allow_update : Bool) :
    List (String × String) → List (String × CreationOutcome)
  | [] => []
  | (g, st) :: rest =>
    match groupAddStatusOutcome st allow_update with
    | CreationOutcome.fatalExit => [(g, CreationOutcome.fatalExit)]
    | o => (g, o) :: creationPhase allow_update rest

/-! ## importgroups.py: role resolution and role changes (apply_data) -/

/-- `importgroups._are_roles_equivalent`. -/
def _are_roles_equivalent (a b : String) : Bool :=
  let r_role_names := ["viewer", "reader"]
  let m_role_names := ["member", "normal"]
  if a = b then true
  else if a ∈ r_role_names && b ∈ r_role_names then true
  else if a ∈ m_role_names && b ∈ m_role_names then true
  else false

/-- Lines 282-286 of `apply_data`: the intended role of a user, starting
from `reader` and upgraded by membership of the members and managers
lists (the viewers list is never consulted: `reader` is the default). -/
def resolve_role (managers members : List String) (username : String) : String :=
  let role := "reader"
  let role := if username ∈ members then "normal" else role
  let role := if username ∈ managers then "manager" else role
  role

/-- A remote rule call issued by `apply_data`. -/
inductive Call where
  | userAdd (group username : String)
  | userAddByOtherCreator (group username : String)
  | changeRole (group username role : String)
  | userRemove (group username : String)
deriving DecidableEq, Repr

/-- Lines 252-305 of `apply_data`: processing of one user of the desired
membership union.  `currentrole` is what `call_uuGroupGetMemberType`
returned, `addStatus` the status an add call would return, `creator`
whether `--creator-user` is set.  Returns the calls issued for this
user. -/
def user_step (creator : Bool) (g u : String) (managers members : List String)
    (currentrole addStatus : String) : List Call :=
  let addCalls :=
    if currentrole = "none" then
      [if creator then Call.userAddByOtherCreator g u else Call.userAdd g u]
    else []
  let currentrole :=
    if currentrole = "none" && addStatus = "0" then "member" else currentrole
  let role := resolve_role managers members u
  if _are_roles_equivalent role currentrole then addCalls
  else addCalls ++ [Call.changeRole g u role]

/-! ## C7: duplicate column detection -/

theorem mem_setInsert (s : List String) (x y : String) :
    y ∈ setInsert s x ↔ y ∈ s ∨ y = x := by
  unfold setInsert
  split
  · constructor
    · exact fun h => Or.inl h
    · rintro (h | rfl)
      · exact h
      · assumption
  · simp [List.mem_append]

theorem mem_dupColsGo (predef : List String) (fields seen dups : List String)
    (x : String) :
    x ∈ dupColsGo predef fields seen dups ↔
      x ∈ dups ∨ (x ∈ predef ∧ ((x ∈ seen ∧ 1 ≤ fields.count x) ∨ 2 ≤ fields.count x)) := by
  induction fields generalizing seen dups with
  | nil => simp [dupColsGo]
  | cons f rest ih =>
    by_cases hp : f ∈ predef
    · by_cases hs : f ∈ seen
      · rw [dupColsGo, if_pos hp, if_pos hs, ih, mem_setInsert]
        rcases eq_or_ne x f with hxf | hxf
        · have hc : List.count x (f :: rest) = List.count x rest + 1 := by
            rw [hxf]
            simp [List.count_cons]
          rw [hc]
          constructor
          · intro _
            exact Or.inr ⟨hxf ▸ hp, Or.inl ⟨hxf ▸ hs, by omega⟩⟩
          · intro _
            exact Or.inl (Or.inr hxf)
        · rw [List.count_cons, if_neg (by simp [Ne.symm hxf]), Nat.add_zero]
          tauto
      · rw [dupColsGo, if_pos hp, if_neg hs, ih]
        rcases eq_or_ne x f with hxf | hxf
        · have hc : List.count x (f :: rest) = List.count x rest + 1 := by
            rw [hxf]
            simp [List.count_cons]
          rw [hc, mem_setInsert]
          have hxs : x ∉ seen := fun h => hs (hxf ▸ h)
          constructor
          · rintro (h | ⟨h1, h2⟩)
            · exact Or.inl h
            · refine Or.inr ⟨h1, Or.inr ?_⟩
              rcases h2 with ⟨_, h3⟩ | h3 <;> omega
          · rintro (h | ⟨h1, h2⟩)
            · exact Or.inl h
            · refine Or.inr ⟨h1, ?_⟩
              rcases h2 with ⟨h3, _⟩ | h3
              · exact absurd h3 hxs
              · exact Or.inl ⟨Or.inr hxf, by omega⟩
        · rw [List.count_cons, if_neg (by simp [Ne.symm hxf]), Nat.add_zero, mem_setInsert]
          have : (x ∈ seen ∨ x = f) ↔ x ∈ seen := by
            constructor
            · rintro (h | h)
              · exact h
              · exact absurd h hxf
            · exact Or.inl
          rw [this]
    · rw [dupColsGo, if_neg hp, ih]
      rcases eq_or_ne x f with hxf | hxf
      · have hpx : x ∉ predef := fun h => hp (hxf ▸ h)
        simp [hpx]
      · rw [List.count_cons, if_neg (by simp [Ne.symm hxf]), Nat.add_zero]

/-- C7: `_get_duplicate_columns` returns exactly the set of predefined
(non-role) labels appearing more than once in the header: membership in
the result is equivalent to being a predefined label with at least two
occurrences; in particular a header listing `category` twice yields
exactly the set containing `category`, and the role labels `manager`,
`member`, `viewer` and suffixed forms such as `manager:x` are never
reported, for any schema version. -/
theorem C7_duplicate_columns :
    (∀ (header : List String) (yoda_version : String) (x : String),
      x ∈ _get_duplicate_columns header yoda_version ↔
        x ∈ _get_csv_predefined_labels yoda_version ∧ 2 ≤ header.count x)
    ∧ _get_duplicate_columns ["category", "subcategory", "groupname", "category"] "1.8"
        = ["category"]
    ∧ (∀ (header : List String) (yoda_version : String),
        "manager" ∉ _get_duplicate_columns header yoda_version
        ∧ "member" ∉ _get_duplicate_columns header yoda_version
        ∧ "viewer" ∉ _get_duplicate_columns header yoda_version
        ∧ "manager:x" ∉ _get_duplicate_columns header yoda_version) := by
  have hmain : ∀ (header : List String) (yoda_version : String) (x : String),
      x ∈ _get_duplicate_columns header yoda_version ↔
        x ∈ _get_csv_predefined_labels yoda_version ∧ 2 ≤ header.count x := by
    intro header v x
    unfold _get_duplicate_columns
    rw [mem_dupColsGo]
    simp
  refine ⟨hmain, by decide, ?_⟩
  intro header v
  have hrole : ∀ s : String, s ∈ ["manager", "member", "viewer", "manager:x"] →
      s ∉ _get_csv_predefined_labels v := by
    intro s hs
    unfold _get_csv_predefined_labels
    split
    · fin_cases hs <;> decide
    · fin_cases hs <;> decide
  refine ⟨?_, ?_, ?_, ?_⟩ <;>
    · rw [hmain]
      rintro ⟨h1, _⟩
      exact hrole _ (by decide) h1

/-! ## C1: creation status handling -/

/-- C1 counterexample: the claim — a "group already exists" status is
tolerated only with `--allow-update`, every other nonzero creation status
is fatal for the row, and the script continues with the next group row —
is false on the code.  With `--allow-update`, the status `-123000` (not an
already-exists status) is tolerated rather than fatal, because line 235's
parenthesised expression is a non-empty tuple and hence always truthy; and
without `--allow-update`, a nonzero status terminates the whole script via
`_exit_with_error` (`sys.exit(1)`), so the following row `research-b` is
never processed. -/
theorem C1_counterexample :
    groupAddStatusOutcome "-123000" true = CreationOutcome.tolerated
    ∧ groupAddStatusOutcome "-123000" true ≠ CreationOutcome.fatalExit
    ∧ creationPhase false [("research-a", "-123000"), ("research-b", "0")]
        = [("research-a", CreationOutcome.fatalExit)] := by
  exact ⟨rfl, by decide, rfl⟩

/-- C1 amended: when `--allow-update` is set, every creation status
(successes and all error statuses alike) takes the tolerated
"group already exists" branch, and the group is never marked as newly
created; when `--allow-update` is not set, rows are processed while the
creation status is `"0"`, and the first row with any other status is
reported as fatal and terminates the entire script, leaving all later
rows unprocessed. -/
theorem C1_creation_status_handling :
    ∀ (rows : List (String × String)),
      creationPhase true rows
          = rows.map (fun p => (p.1, CreationOutcome.tolerated))
      ∧ creationPhase false rows
          = (rows.takeWhile (fun p => p.2 == "0")).map
              (fun p => (p.1, CreationOutcome.created))
            ++ ((rows.dropWhile (fun p => p.2 == "0")).take 1).map
              (fun p => (p.1, CreationOutcome.fatalExit)) := by
  intro rows
  induction rows with
  | nil => exact ⟨rfl, rfl⟩
  | cons row rest ih =>
    obtain ⟨g, st⟩ := row
    constructor
    · rw [creationPhase]
      have h1 : groupAddStatusOutcome st true = CreationOutcome.tolerated := rfl
      rw [h1, ih.1, List.map_cons]
    · rw [creationPhase]
      by_cases h : st = "0"
      · subst h
        have h1 : groupAddStatusOutcome "0" false = CreationOutcome.created := rfl
        rw [h1]
        simp only [List.takeWhile_cons, List.dropWhile_cons]
        simp [ih.2]
      · have h1 : groupAddStatusOutcome st false = CreationOutcome.fatalExit := by
          unfold groupAddStatusOutcome pyNonEmptyTupleTruthy
          simp [h]
        rw [h1]
        simp only [List.takeWhile_cons, List.dropWhile_cons]
        simp [h]

/-! ## C8: role precedence and role-change calls -/

/-- C8: in the per-user step of `apply_data`, the intended role is
resolved with precedence manager > member > viewer (a user listed under
several roles gets the highest one), and a `uuGroupUserChangeRole` call is
issued if and only if the user's effective current role — `member` right
after a successful add, otherwise what the group reports — is not
equivalent to the intended role under the synonym equivalence
`{viewer, reader}` / `{member, normal}` of `_are_roles_equivalent`. -/
theorem C8_role_precedence_and_change :
    ∀ (creator : Bool) (g u : String) (managers members : List String)
      (currentrole addStatus : String),
      (u ∈ managers → resolve_role managers members u = "manager")
      ∧ (u ∉ managers → u ∈ members → resolve_role managers members u = "normal")
      ∧ (u ∉ managers → u ∉ members → resolve_role managers members u = "reader")
      ∧ (∀ r, Call.changeRole g u r
            ∈ user_step creator g u managers members currentrole addStatus
          ↔ (r = resolve_role managers members u
             ∧ _are_roles_equivalent (resolve_role managers members u)
                 (if currentrole = "none" && addStatus = "0" then "member" else currentrole)
               = false)) := by
  intro creator g u managers members currentrole addStatus
  refine ⟨?_, ?_, ?_, ?_⟩
  · intro h
    simp [resolve_role, h]
  · intro h1 h2
    simp [resolve_role, h1, h2]
  · intro h1 h2
    simp [resolve_role, h1, h2]
  · intro r
    simp only [user_step]
    cases hb : _are_roles_equivalent (resolve_role managers members u)
        (if currentrole = "none" && addStatus = "0" then "member" else currentrole) with
    | false =>
      by_cases hc : currentrole = "none" <;> cases creator <;> simp [hc, hb]
    | true =>
      by_cases hc : currentrole = "none" <;> cases creator <;> simp [hc, hb]

/-- Witness for C8 at a concrete input: a user listed both as manager and
member resolves to `manager`, and since `manager` is not equivalent to the
current role `normal`, a role-change call is issued. -/
theorem C8_witness :
    resolve_role ["a@x.nl"] ["a@x.nl"] "a@x.nl" = "manager"
    ∧ Call.changeRole "research-g" "a@x.nl" "manager"
        ∈ user_step false "research-g" "a@x.nl" ["a@x.nl"] ["a@x.nl"] "normal" "0" := by
  have h := C8_role_precedence_and_change false "research-g" "a@x.nl"
    ["a@x.nl"] ["a@x.nl"] "normal" "0"
  refine ⟨h.1 (by decide), ?_⟩
  have hr := (h.2.2.2 "manager").mpr ⟨(h.1 (by decide)).symm, by decide⟩
  exact hr

/-! ## C2: the `--delete` step of apply_data (lines 334-363) -/

/-- `user.split('#')[0]`: the part of a member name before the zone
separator. -/
def pyDropZone (u : String) : String :=
  ⟨u.data.takeWhile (fun c => c ≠ '#')⟩

/-- The loop over `currentusers` of the `--delete` step, carrying the
(mutated) CSV `managers` list.  For a current user not in `allusers`:
if the user is in the CSV managers list and it has length one, the
removal is skipped with a printed error; otherwise the user is (after
being dropped from the managers list if present there) removed via
`call_uuGroupUserRemove`. -/
def deleteStepGo (g : String) (allusers : List String) :
    List String → List String → List Call
  | _, [] => []
  | managers, user :: rest =>
    if user ∈ allusers then deleteStepGo g allusers managers rest
    else
      if user ∈ managers then
        if managers.length = 1 then deleteStepGo g allusers managers rest
        else Call.userRemove g user :: deleteStepGo g allusers (managers.erase user) rest
      else Call.userRemove g user :: deleteStepGo g allusers managers rest

/-- Lines 334-363 of `apply_data`: remove users not in the sheet.
`currentusers` is what `call_uuGroupGetMembers` returned (names possibly
carrying a `#zone` suffix), `allusers = managers + members + viewers` the
desired union from the CSV row, `managers` the CSV managers list. -/
def delete_extraneous_users (g : String) (currentusers allusers managers : List String) :
    List Call :=
  deleteStepGo g allusers managers (currentusers.map pyDropZone)

theorem deleteStepGo_subset (g : String) (allusers : List String) :
    ∀ (l managers : List String), (∀ u ∈ managers, u ∈ allusers) →
      deleteStepGo g allusers managers l
        = (l.filter (fun u => decide (u ∉ allusers))).map (Call.userRemove g) := by
  intro l
  induction l with
  | nil => intro managers _; rfl
  | cons user rest ih =>
    intro managers h
    by_cases hu : user ∈ allusers
    · rw [deleteStepGo, if_pos hu, ih managers h, List.filter_cons]
      simp [hu]
    · have hm : user ∉ managers := fun hmem => hu (h user hmem)
      rw [deleteStepGo, if_neg hu, if_neg hm, ih managers h, List.filter_cons]
      simp [hu]

/-- C2: evaluation of the `--delete` step.  Whenever the CSV managers
list is contained in the desired union `allusers` — which always holds in
`apply_data`, where `allusers = managers + members + viewers` — every
current group member whose zone-stripped name is not in the union is
removed, unconditionally: the "sole remaining manager" guard compares
against the CSV managers list, whose members are by construction in the
union and hence never removal candidates, so the guard never fires and a
group's sole actual manager is removed like anyone else. -/
theorem C2_delete_step (g : String) (currentusers allusers managers : List String)
    (h : ∀ u ∈ managers, u ∈ allusers) :
    delete_extraneous_users g currentusers allusers managers
      = ((currentusers.map pyDropZone).filter
          (fun u => decide (u ∉ allusers))).map (Call.userRemove g) :=
  deleteStepGo_subset g allusers (currentusers.map pyDropZone) managers h

/-- Witness for C2 at the failing input: the group's current membership is
only `alice#tempZone` (alice being, remotely, the sole manager of the
group), the CSV row has managers `bob@uu.nl` and no members or viewers;
the code removes alice, leaving the group manager-less. -/
theorem C2_delete_step_witness :
    (∀ u ∈ (["bob@uu.nl"] : List String), u ∈ (["bob@uu.nl"] : List String))
    ∧ delete_extraneous_users "research-g" ["alice#tempZone"] ["bob@uu.nl"] ["bob@uu.nl"]
        = [Call.userRemove "research-g" "alice"] := by
  refine ⟨fun u hu => hu, ?_⟩
  rw [C2_delete_step "research-g" ["alice#tempZone"] ["bob@uu.nl"] ["bob@uu.nl"]
    (fun u hu => hu)]
  decide

/-! ## C10: old/new/both buckets of reportoldvsnewdata.get_collection_data -/

/-- One row of the per-collection data-object query: name, replica size
and replica modification timestamp. -/
structure ReplicaRow where
  name : String
  size : Int
  mtime : Int

/-- `reportoldvsnewdata.get_collection_data._add_up`: `d[name] += value`
on a dict embedded as an insertion-ordered association list. -/
def addUp : List (String × Int) → String → Int → List (String × Int)
  | [], n, v => [(n, v)]
  | (k, x) :: rest, n, v =>
    if k = n then (k, x + v) :: rest else (k, x) :: addUp rest n v

/-- The three buckets of `get_collection_data` for one column label: the
`results` dict, whose keys are the three distinct strings
`column_label + " (old data)"`, `" (new data)"` and `" (both)"`. -/
structure SizeBuckets where
  oldData : Int
  newData : Int
  bothData : Int
deriving DecidableEq, Repr

/-- Lines 198-204 of `get_collection_data`: processing of one data-object
name: `size_all_replicas` is added to the both-bucket, and to the new
bucket if the object has a new replica, otherwise to the old bucket. -/
def bucketStep (old_data new_data : List (String × Int)) (acc : SizeBuckets)
    (n : String) : SizeBuckets :=
  let size_all := ((old_data.lookup n).getD 0) + ((new_data.lookup n).getD 0)
  if (new_data.lookup n).isSome then
    { acc with bothData := acc.bothData + size_all, newData := acc.newData + size_all }
  else
    { acc with bothData := acc.bothData + size_all, oldData := acc.oldData + size_all }

/-- Lines 182-206 of `get_collection_data`: one collection's data objects
are split per object name into old and new replica-size dicts, and each
name in the union of the two key sets updates the running buckets.  (The
iteration order of the CPython `set` union is unspecified; the bucket
sums are independent of it, and the embedding fixes the deduplicated
left-to-right order.) -/
def collectionStep (cutoff : Int) (acc : SizeBuckets) (rows : List ReplicaRow) :
    SizeBuckets :=
  let pair := rows.foldl
    (fun (p : List (String × Int) × List (String × Int)) r =>
      if r.mtime ≥ cutoff then (p.1, addUp p.2 r.name r.size)
      else (addUp p.1 r.name r.size, p.2)) ([], [])
  let names := (pair.1.map Prod.fst ++ pair.2.map Prod.fst).dedup
  names.foldl (bucketStep pair.1 pair.2) acc

/-- `reportoldvsnewdata.get_collection_data`, over the already-fetched
per-collection query results (the catalog session is an external
collaborator). -/
def get_collection_data (cutoff : Int) (collections : List (List ReplicaRow)) :
    SizeBuckets :=
  collections.foldl (collectionStep cutoff) ⟨0, 0, 0⟩

theorem bucketStep_fold_invariant (old_data new_data : List (String × Int)) :
    ∀ (names : List String) (acc : SizeBuckets),
      (names.foldl (bucketStep old_data new_data) acc).bothData
          - (names.foldl (bucketStep old_data new_data) acc).oldData
          - (names.foldl (bucketStep old_data new_data) acc).newData
        = acc.bothData - acc.oldData - acc.newData := by
  intro names
  induction names with
  | nil => intro acc; rfl
  | cons n rest ih =>
    intro acc
    rw [List.foldl_cons, ih]
    unfold bucketStep
    by_cases hs : (new_data.lookup n).isSome
    · rw [if_pos hs]
      simp only []
      omega
    · rw [if_neg hs]
      simp only []
      omega

theorem collectionStep_invariant (cutoff : Int) (rows : List ReplicaRow)
    (acc : SizeBuckets) :
    (collectionStep cutoff acc rows).bothData
        - (collectionStep cutoff acc rows).oldData
        - (collectionStep cutoff acc rows).newData
      = acc.bothData - acc.oldData - acc.newData := by
  unfold collectionStep
  exact bucketStep_fold_invariant _ _ _ acc

/-- C10: for every cutoff and every list of per-collection data-object
query results, the both bucket returned by `get_collection_data` equals
the sum of the old and new buckets: each data object's total replica size
is added to the both bucket and to exactly one of the old and new
buckets. -/
theorem C10_both_eq_old_plus_new :
    ∀ (cutoff : Int) (collections : List (List ReplicaRow)),
      (get_collection_data cutoff collections).bothData
        = (get_collection_data cutoff collections).oldData
          + (get_collection_data cutoff collections).newData := by
  intro cutoff collections
  unfold get_collection_data
  have main : ∀ (cs : List (List ReplicaRow)) (acc : SizeBuckets),
      (cs.foldl (collectionStep cutoff) acc).bothData
          - (cs.foldl (collectionStep cutoff) acc).oldData
          - (cs.foldl (collectionStep cutoff) acc).newData
        = acc.bothData - acc.oldData - acc.newData := by
    intro cs
    induction cs with
    | nil => intro acc; rfl
    | cons c rest ih =>
      intro acc
      rw [List.foldl_cons, ih, collectionStep_invariant]
  have h := main collections ⟨0, 0, 0⟩
  simp only [show (⟨0, 0, 0⟩ : SizeBuckets).bothData = 0 from rfl,
    show (⟨0, 0, 0⟩ : SizeBuckets).oldData = 0 from rfl,
    show (⟨0, 0, 0⟩ : SizeBuckets).newData = 0 from rfl] at h
  omega

/-! ## C4: reportintakedataduplication.get_duplicates -/

/-- One entry of the dict lists built by
`reportintakedataduplication.get_data_objs_with_checksum`. -/
structure DataObj where
  group : String
  parent : String
  dataobj : String
  chksum : String
  size : Int
deriving DecidableEq, Repr

/-- Appending an entry to the list at key `k` of the lookup dict
(`output[k].append(entry)` / `output[k] = [entry]`). -/
def lookupDictInsert : List (String × List DataObj) → String → DataObj →
    List (String × List DataObj)
  | [], k, o => [(k, [o])]
  | (k0, l) :: rest, k, o =>
    if k0 = k then (k0, l ++ [o]) :: rest
    else (k0, l) :: lookupDictInsert rest k o

/-- `reportintakedataduplication._get_dataobject_lookup_dict`. -/
def _get_dataobject_lookup_dict (data : List DataObj) (indexkey : DataObj → String) :
    List (String × List DataObj) :=
  data.foldl (fun m o => lookupDictInsert m (indexkey o) o) []

theorem lookup_lookupDictInsert (m : List (String × List DataObj)) (k : String)
    (o : DataObj) (q : String) :
    (lookupDictInsert m k o).lookup q
      = if q = k then some (((m.lookup q).getD []) ++ [o]) else m.lookup q := by
  induction m with
  | nil =>
    by_cases hq : q = k
    · have hb : (q == k) = true := beq_iff_eq.mpr hq
      simp [lookupDictInsert, List.lookup, hb, hq]
    · have hb : (q == k) = false := beq_eq_false_iff_ne.mpr hq
      simp [lookupDictInsert, List.lookup, hb, hq]
  | cons p rest ih =>
    obtain ⟨k0, l⟩ := p
    by_cases h0 : k0 = k
    · subst h0
      by_cases hq : q = k0
      · have hb : (q == k0) = true := beq_iff_eq.mpr hq
        simp [lookupDictInsert, List.lookup, hb, hq]
      · have hb : (q == k0) = false := beq_eq_false_iff_ne.mpr hq
        simp [lookupDictInsert, List.lookup, hb, hq]
    · rw [lookupDictInsert, if_neg h0]
      by_cases hq : q = k0
      · subst hq
        have hqk : ¬q = k := fun h => h0 h
        have hb : (q == q) = true := beq_iff_eq.mpr rfl
        simp [List.lookup, hb, hqk]
      · have hb : (q == k0) = false := beq_eq_false_iff_ne.mpr hq
        simp [List.lookup, hb, ih]

theorem lookup_dict_go (indexkey : DataObj → String) (k : String) :
    ∀ (data : List DataObj) (m : List (String × List DataObj)),
      ((data.foldl (fun m o => lookupDictInsert m (indexkey o) o) m).lookup k)
        = if (m.lookup k).isSome ∨ ¬(data.filter (fun o => indexkey o = k)).isEmpty
          then some ((m.lookup k).getD [] ++ data.filter (fun o => indexkey o = k))
          else none := by
  intro data
  induction data with
  | nil =>
    intro m
    rcases hm : m.lookup k with _ | l <;> simp [hm]
  | cons o rest ih =>
    intro m
    rw [List.foldl_cons, ih, lookup_lookupDictInsert]
    by_cases ho : indexkey o = k
    · have hko : k = indexkey o := ho.symm
      rw [if_pos hko]
      have hfil : (o :: rest).filter (fun o => decide (indexkey o = k))
          = o :: rest.filter (fun o => decide (indexkey o = k)) := by
        rw [List.filter_cons, if_pos (by simp [ho])]
      rw [hfil]
      simp [List.append_assoc]
    · have hko : ¬k = indexkey o := fun h => ho h.symm
      rw [if_neg hko]
      have hfil : (o :: rest).filter (fun o => decide (indexkey o = k))
          = rest.filter (fun o => decide (indexkey o = k)) := by
        rw [List.filter_cons, if_neg (by simp [ho])]
      rw [hfil]

/-- Membership characterization of the lookup dict: the list stored at a
key is exactly the sublist of entries with that key, in input order, and
a key is present iff some entry has it. -/
theorem lookup_dict_spec (data : List DataObj) (indexkey : DataObj → String)
    (k : String) :
    (_get_dataobject_lookup_dict data indexkey).lookup k
      = if (data.filter (fun o => indexkey o = k)).isEmpty then none
        else some (data.filter (fun o => indexkey o = k)) := by
  unfold _get_dataobject_lookup_dict
  rw [lookup_dict_go]
  rcases he : (data.filter (fun o => decide (indexkey o = k))).isEmpty with _ | _
  · simp [he, List.lookup]
  · simp [he, List.lookup]

/-- The body of the research loop of `get_duplicates` for one research
data object: `some (research object, duplicateOf string)` when both
lookups hit and the intersection of the two intake lists is non-empty. -/
def dupEntry (intake_dataobjs : List DataObj) (r : DataObj) :
    Option (DataObj × String) :=
  match (_get_dataobject_lookup_dict intake_dataobjs (fun o => o.chksum)).lookup r.chksum,
        (_get_dataobject_lookup_dict intake_dataobjs (fun o => o.dataobj)).lookup r.dataobj with
  | some intake_objects_by_checksum, some intake_objects_by_name =>
    if 0 < (intake_objects_by_name.filter
        (fun o => decide (o ∈ intake_objects_by_checksum))).length then
      some (r, String.intercalate ","
        ((intake_objects_by_name.filter
          (fun o => decide (o ∈ intake_objects_by_checksum))).map
            (fun o => o.parent ++ "/" ++ o.dataobj)))
    else none
  | _, _ => none

/-- `reportintakedataduplication.get_duplicates`: each research object
matched by both name and checksum is appended (as a copy extended with
the `duplicateOf` path string) to the duplicates list. -/
def get_duplicates (research_dataobjs intake_dataobjs : List DataObj) :
    List (DataObj × String) :=
  research_dataobjs.foldl
    (fun duplicates r => duplicates ++ (dupEntry intake_dataobjs r).toList) []

theorem mem_foldl_append_toList {α β : Type} (f : α → Option β) :
    ∀ (l : List α) (acc : List β) (x : β),
      x ∈ l.foldl (fun a r => a ++ (f r).toList) acc
        ↔ x ∈ acc ∨ ∃ r ∈ l, f r = some x := by
  intro l
  induction l with
  | nil => simp
  | cons o rest ih =>
    intro acc x
    rw [List.foldl_cons, ih]
    rcases hf : f o with _ | y
    · rw [show (none : Option β).toList = [] from rfl, List.append_nil]
      constructor
      · rintro (h | ⟨r, hr, hfr⟩)
        · exact Or.inl h
        · exact Or.inr ⟨r, List.mem_cons_of_mem _ hr, hfr⟩
      · rintro (h | ⟨r, hr, hfr⟩)
        · exact Or.inl h
        · rcases List.mem_cons.mp hr with heq | hr2
          · subst heq
            rw [hf] at hfr
            cases hfr
          · exact Or.inr ⟨r, hr2, hfr⟩
    · rw [show (some y : Option β).toList = [y] from rfl]
      constructor
      · rintro (h | ⟨r, hr, hfr⟩)
        · rcases List.mem_append.mp h with h1 | h1
          · exact Or.inl h1
          · refine Or.inr ⟨o, List.mem_cons_self _ _, ?_⟩
            rw [hf, List.mem_singleton.mp h1]
        · exact Or.inr ⟨r, List.mem_cons_of_mem _ hr, hfr⟩
      · rintro (h | ⟨r, hr, hfr⟩)
        · exact Or.inl (List.mem_append.mpr (Or.inl h))
        · rcases List.mem_cons.mp hr with heq | hr2
          · subst heq
            rw [hf] at hfr
            exact Or.inl (List.mem_append.mpr (Or.inr
              (List.mem_singleton.mpr (Option.some.inj hfr).symm)))
          · exact Or.inr ⟨r, hr2, hfr⟩

theorem dupEntry_fst (intake : List DataObj) (r' x : DataObj) (s : String)
    (h : dupEntry intake r' = some (x, s)) : x = r' := by
  unfold dupEntry at h
  split at h
  · split at h
    · have h2 := Option.some.inj h
      exact ((Prod.ext_iff.mp h2).1).symm
    · cases h
  · cases h

theorem dupEntry_some_iff (intake : List DataObj) (r : DataObj) :
    (∃ s, dupEntry intake r = some (r, s))
      ↔ ∃ o ∈ intake, o.dataobj = r.dataobj ∧ o.chksum = r.chksum := by
  unfold dupEntry
  rw [lookup_dict_spec, lookup_dict_spec]
  by_cases hc : (intake.filter (fun o => decide (o.chksum = r.chksum))).isEmpty
  · rw [if_pos hc]
    constructor
    · rintro ⟨s, hs⟩
      cases hs
    · rintro ⟨o, ho, hname, hchk⟩
      exfalso
      have : o ∈ intake.filter (fun o => decide (o.chksum = r.chksum)) :=
        List.mem_filter.mpr ⟨ho, by simp [hchk]⟩
      rw [List.isEmpty_iff] at hc
      rw [hc] at this
      cases this
  · rw [if_neg hc]
    by_cases hn : (intake.filter (fun o => decide (o.dataobj = r.dataobj))).isEmpty
    · rw [if_pos hn]
      constructor
      · rintro ⟨s, hs⟩
        cases hs
      · rintro ⟨o, ho, hname, hchk⟩
        exfalso
        have : o ∈ intake.filter (fun o => decide (o.dataobj = r.dataobj)) :=
          List.mem_filter.mpr ⟨ho, by simp [hname]⟩
        rw [List.isEmpty_iff] at hn
        rw [hn] at this
        cases this
    · rw [if_neg hn]
      simp only []
      by_cases hl : 0 < ((intake.filter (fun o => decide (o.dataobj = r.dataobj))).filter
          (fun o => decide (o ∈ intake.filter (fun o => decide (o.chksum = r.chksum))))).length
      · rw [if_pos hl]
        constructor
        · intro _
          obtain ⟨o, ho⟩ := List.exists_mem_of_length_pos hl
          have h1 := List.mem_filter.mp ho
          have h2 := List.mem_filter.mp h1.1
          have h3 := List.mem_filter.mp (of_decide_eq_true h1.2)
          exact ⟨o, h2.1, of_decide_eq_true h2.2, of_decide_eq_true h3.2⟩
        · intro _
          exact ⟨_, rfl⟩
      · rw [if_neg hl]
        constructor
        · rintro ⟨s, hs⟩
          cases hs
        · rintro ⟨o, ho, hname, hchk⟩
          exfalso
          apply hl
          apply List.length_pos_of_mem (a := o)
          refine List.mem_filter.mpr ⟨List.mem_filter.mpr ⟨ho, by simp [hname]⟩, ?_⟩
          simp only [decide_eq_true_eq]
          exact List.mem_filter.mpr ⟨ho, by simp [hchk]⟩

/-- C4: `get_duplicates` marks a research data object as a duplicate
(appends it with a `duplicateOf` intake-side path) iff some intake data
object matches it in BOTH data object name and checksum; consequently if
no intake object shares its name, or none shares its checksum, the
research object is never marked. -/
theorem C4_duplicates_name_and_checksum (research intake : List DataObj)
    (r : DataObj) (hr : r ∈ research) :
    ((∃ s, (r, s) ∈ get_duplicates research intake)
        ↔ ∃ o ∈ intake, o.dataobj = r.dataobj ∧ o.chksum = r.chksum)
    ∧ ((∀ o ∈ intake, o.dataobj ≠ r.dataobj) →
        ∀ s, (r, s) ∉ get_duplicates research intake)
    ∧ ((∀ o ∈ intake, o.chksum ≠ r.chksum) →
        ∀ s, (r, s) ∉ get_duplicates research intake) := by
  have hmem : ∀ s : String, (r, s) ∈ get_duplicates research intake
      ↔ ∃ r' ∈ research, dupEntry intake r' = some (r, s) := by
    intro s
    unfold get_duplicates
    rw [mem_foldl_append_toList]
    simp
  have hiff : (∃ s, (r, s) ∈ get_duplicates research intake)
      ↔ ∃ o ∈ intake, o.dataobj = r.dataobj ∧ o.chksum = r.chksum := by
    constructor
    · rintro ⟨s, hs⟩
      rw [hmem s] at hs
      obtain ⟨r', hr', hdup⟩ := hs
      have heq : r = r' := dupEntry_fst intake r' r s hdup
      subst heq
      exact (dupEntry_some_iff intake r).mp ⟨s, hdup⟩
    · intro hex
      obtain ⟨s, hs⟩ := (dupEntry_some_iff intake r).mpr hex
      exact ⟨s, (hmem s).mpr ⟨r, hr, hs⟩⟩
  refine ⟨hiff, ?_, ?_⟩
  · intro hno s hmem'
    obtain ⟨o, ho, hname, _⟩ := hiff.mp ⟨s, hmem'⟩
    exact hno o ho hname
  · intro hno s hmem'
    obtain ⟨o, ho, _, hchk⟩ := hiff.mp ⟨s, hmem'⟩
    exact hno o ho hchk

/-- Witness for C4: one research object and an intake set containing one
object with the same name and checksum (a match) — plus, for the
only-when direction, the theorem applied to an intake set where only the
checksum matches yields no marking. -/
theorem C4_witness :
    (⟨"research-a", "/z/research-a", "f.dat", "sha2:abc", 10⟩ : DataObj)
        ∈ ([⟨"research-a", "/z/research-a", "f.dat", "sha2:abc", 10⟩] : List DataObj)
    ∧ (∃ s, ((⟨"research-a", "/z/research-a", "f.dat", "sha2:abc", 10⟩ : DataObj), s)
        ∈ get_duplicates
            [⟨"research-a", "/z/research-a", "f.dat", "sha2:abc", 10⟩]
            [⟨"grp-i", "/z/grp-i", "f.dat", "sha2:abc", 10⟩])
    ∧ (∀ s, ((⟨"research-a", "/z/research-a", "f.dat", "sha2:abc", 10⟩ : DataObj), s)
        ∉ get_duplicates
            [⟨"research-a", "/z/research-a", "f.dat", "sha2:abc", 10⟩]
            [⟨"grp-i", "/z/grp-i", "g.dat", "sha2:abc", 10⟩]) := by
  refine ⟨by decide, ?_, ?_⟩
  · exact (C4_duplicates_name_and_checksum
      [⟨"research-a", "/z/research-a", "f.dat", "sha2:abc", 10⟩]
      [⟨"grp-i", "/z/grp-i", "f.dat", "sha2:abc", 10⟩]
      ⟨"research-a", "/z/research-a", "f.dat", "sha2:abc", 10⟩ (by decide)).1.mpr
      ⟨⟨"grp-i", "/z/grp-i", "f.dat", "sha2:abc", 10⟩, by decide, rfl, rfl⟩
  · exact (C4_duplicates_name_and_checksum
      [⟨"research-a", "/z/research-a", "f.dat", "sha2:abc", 10⟩]
      [⟨"grp-i", "/z/grp-i", "g.dat", "sha2:abc", 10⟩]
      ⟨"research-a", "/z/research-a", "f.dat", "sha2:abc", 10⟩ (by decide)).2.1
      (by decide)

/-! ## C3: importgroups._process_csv_line -/

/-- The row tuple `(category, subcategory, groupname, managers, members,
viewers, schema_id, expiration_date)` built by `_process_csv_line`. -/
structure RowData where
  category : String
  subcategory : String
  groupname : String
  managers : List String
  members : List String
  viewers : List String
  schema_id : String
  expiration_date : String
deriving DecidableEq, Repr

/-- Lines 152-156 of `_process_csv_line`: normalize each cell of a role
column (`strip().lower()`) and validate it as a username, returning the
first validation message on failure. -/
def processItems (domainOk : String → Bool) (no_validate_domains : Bool) :
    List String → Except String (List String)
  | [] => Except.ok []
  | s :: rest =>
    match is_valid_username domainOk (pyLower (pyStrip s)) no_validate_domains with
    | (true, _) =>
      match processItems domainOk no_validate_domains rest with
      | Except.ok l => Except.ok (pyLower (pyStrip s) :: l)
      | Except.error e => Except.error e
    | (_, msg) => Except.error (msg.getD "")

/-- Lines 144-163 of `_process_csv_line`: the loop over the row's columns
(in dict insertion order), accumulating the managers, members and viewers
lists.  Predefined columns are skipped; any other column has its cells
normalized and validated, and is then routed by the lower-cased column
name (`manager`/`member`/`viewer`, optionally with a `:suffix`); columns
matching no role are validated but dropped. -/
def processColumns (domainOk : String → Bool) (no_validate_domains : Bool)
    (yoda_version : String) :
    List (String × List String) → Except String (List String × List String × List String)
  | [] => Except.ok ([], [], [])
  | (column_name, item_list) :: rest =>
    if column_name = "" then Except.error "Column cannot have an empty label"
    else if (yoda_version = "1.7" || yoda_version = "1.8")
        && column_name ∈ _get_csv_1_9_exclusive_labels then
      Except.error ("Column \"" ++ column_name ++ "\" is only supported in Yoda 1.9 and higher")
    else if column_name ∈ _get_csv_predefined_labels yoda_version then
      processColumns domainOk no_validate_domains yoda_version rest
    else
      match processItems domainOk no_validate_domains item_list with
      | Except.error e => Except.error e
      | Except.ok items =>
        match processColumns domainOk no_validate_domains yoda_version rest with
        | Except.error e => Except.error e
        | Except.ok (ms, mems, vs) =>
          if pyLower column_name = "manager"
              || "manager:".data.isPrefixOf (pyLower column_name).data then
            Except.ok (items ++ ms, mems, vs)
          else if pyLower column_name = "member"
              || "member:".data.isPrefixOf (pyLower column_name).data then
            Except.ok (ms, items ++ mems, vs)
          else if pyLower column_name = "viewer"
              || "viewer:".data.isPrefixOf (pyLower column_name).data then
            Except.ok (ms, mems, items ++ vs)
          else Except.ok (ms, mems, vs)

/-- Access to a multi-valued CSV row dict: the cell list of a column, or
`[]` when the column is absent (matching the `'k' in line and
len(line['k'])` guards). -/
def lineGet (line : List (String × List String)) (k : String) : List String :=
  (line.lookup k).getD []

/-- `importgroups._process_csv_line`.  The row dict is an
insertion-ordered association list from column name to the non-empty cell
values of that column; `today` is the validation time string used by
`is_valid_expiration_date`; `domainOk` the DNS oracle. -/
def _process_csv_line (today : String) (domainOk : String → Bool)
    (line : List (String × List String)) (no_validate_domains : Bool)
    (yoda_version : String) : Except String RowData :=
  if (lineGet line "category").isEmpty || (lineGet line "subcategory").isEmpty
      || (lineGet line "groupname").isEmpty then
    Except.error "Row has a missing group name, category or subcategory"
  else
    match processColumns domainOk no_validate_domains yoda_version line with
    | Except.error e => Except.error e
    | Except.ok (managers, members, viewers) =>
      if managers.isEmpty then Except.error "Group must have a group manager"
      else if !is_valid_category (pyRemoveDots (pyLower (pyStrip ((lineGet line "category").headD "")))) then
        Except.error ("\"" ++ pyRemoveDots (pyLower (pyStrip ((lineGet line "category").headD ""))) ++ "\" is not a valid category name.")
      else if !is_valid_category (pyStrip ((lineGet line "subcategory").headD "")) then
        Except.error ("\"" ++ pyStrip ((lineGet line "subcategory").headD "") ++ "\" is not a valid subcategory name.")
      else if !is_valid_groupname ("research-" ++ pyLower (pyStrip ((lineGet line "groupname").headD ""))) then
        Except.error ("\"" ++ ("research-" ++ pyLower (pyStrip ((lineGet line "groupname").headD ""))) ++ "\" is not a valid group name.")
      else if !is_valid_schema_id ((lineGet line "schema_id").headD "") then
        Except.error ("\"" ++ (lineGet line "schema_id").headD "" ++ "\" is not a valid schema id.")
      else if !is_valid_expiration_date today ((lineGet line "expiration_date").headD "") then
        Except.error ("\"" ++ (lineGet line "expiration_date").headD "" ++ "\" is not a valid expiration date.")
      else Except.ok
        ⟨pyRemoveDots (pyLower (pyStrip ((lineGet line "category").headD ""))),
         pyStrip ((lineGet line "subcategory").headD ""),
         "research-" ++ pyLower (pyStrip ((lineGet line "groupname").headD "")),
         managers, members, viewers,
         (lineGet line "schema_id").headD "",
         (lineGet line "expiration_date").headD ""⟩

/-- C3 counterexample: the row parser accepts a row whose subcategory
cell is `Initial` and returns it unchanged — the subcategory is not
lower-cased (it is only stripped), contradicting the claim that every
field value of an accepted row is lower-cased. -/
theorem C3_counterexample :
    (_process_csv_line "2026-10-12" (fun _ => true)
        [("category", ["test-automation"]), ("subcategory", ["Initial"]),
         ("groupname", ["groupteama"]), ("manager", ["m.manager@yoda.dev"])]
        true "1.9").toOption.map RowData.subcategory = some "Initial"
    ∧ "Initial" ≠ pyLower (pyStrip "Initial") := by
  exact ⟨rfl, by decide⟩

theorem processItems_mem (domainOk : String → Bool) (nvd : Bool) :
    ∀ (items : List String) (out : List String),
      processItems domainOk nvd items = Except.ok out →
      ∀ u ∈ out, ∃ raw ∈ items, u = pyLower (pyStrip raw) := by
  intro items
  induction items with
  | nil =>
    intro out h u hu
    simp only [processItems] at h
    injection h with h1
    subst h1
    cases hu
  | cons s rest ih =>
    intro out h u hu
    simp only [processItems] at h
    rcases hv : is_valid_username domainOk (pyLower (pyStrip s)) nvd with ⟨b, msg⟩
    rw [hv] at h
    cases b
    · cases h
    · rcases hr : processItems domainOk nvd rest with e | l
      · rw [hr] at h
        cases h
      · rw [hr] at h
        injection h with h1
        subst h1
        rcases List.mem_cons.mp hu with heq | hmem
        · exact ⟨s, List.mem_cons_self _ _, heq⟩
        · obtain ⟨raw, hraw, heq⟩ := ih l hr u hmem
          exact ⟨raw, List.mem_cons_of_mem _ hraw, heq⟩

theorem processColumns_mem (domainOk : String → Bool) (nvd : Bool) (v : String) :
    ∀ (line : List (String × List String))
      (out : List String × List String × List String),
      processColumns domainOk nvd v line = Except.ok out →
      ∀ u, u ∈ out.1 ++ out.2.1 ++ out.2.2 →
        ∃ col cells raw, (col, cells) ∈ line ∧ raw ∈ cells
          ∧ u = pyLower (pyStrip raw) := by
  intro line
  induction line with
  | nil =>
    intro out h u hu
    simp only [processColumns] at h
    injection h with h1
    subst h1
    cases hu
  | cons p rest ih =>
    obtain ⟨cn, il⟩ := p
    intro out h u hu
    simp only [processColumns] at h
    split at h
    · cases h
    · split at h
      · cases h
      · split at h
        · obtain ⟨col, cells, raw, hcol, hraw, heq⟩ := ih out h u hu
          exact ⟨col, cells, raw, List.mem_cons_of_mem _ hcol, hraw, heq⟩
        · split at h
          · cases h
          · rename_i items hi
            split at h
            · cases h
            · rename_i ms0 mems0 vs0 hr
              have hfromItems : u ∈ items →
                  ∃ col cells raw, (col, cells) ∈ (cn, il) :: rest ∧ raw ∈ cells
                    ∧ u = pyLower (pyStrip raw) := by
                intro humem
                obtain ⟨raw, hraw, heq⟩ :=
                  processItems_mem domainOk nvd il items hi u humem
                exact ⟨cn, il, raw, List.mem_cons_self _ _, hraw, heq⟩
              have hfromRest : u ∈ ms0 ++ mems0 ++ vs0 →
                  ∃ col cells raw, (col, cells) ∈ (cn, il) :: rest ∧ raw ∈ cells
                    ∧ u = pyLower (pyStrip raw) := by
                intro humem
                obtain ⟨col, cells, raw, hcol, hraw, heq⟩ :=
                  ih (ms0, mems0, vs0) hr u humem
                exact ⟨col, cells, raw, List.mem_cons_of_mem _ hcol, hraw, heq⟩
              split at h
              · injection h with h1
                subst h1
                simp only [List.mem_append] at hu
                rcases hu with (hu | hu) | hu
                · rcases hu with hu2 | hu2
                  · exact hfromItems hu2
                  · exact hfromRest (by simp [hu2])
                · exact hfromRest (by simp [hu])
                · exact hfromRest (by simp [hu])
              · split at h
                · injection h with h1
                  subst h1
                  simp only [List.mem_append] at hu
                  rcases hu with (hu | hu) | hu
                  · exact hfromRest (by simp [hu])
                  · rcases hu with hu2 | hu2
                    · exact hfromItems hu2
                    · exact hfromRest (by simp [hu2])
                  · exact hfromRest (by simp [hu])
                · split at h
                  · injection h with h1
                    subst h1
                    simp only [List.mem_append] at hu
                    rcases hu with (hu | hu) | hu
                    · exact hfromRest (by simp [hu])
                    · exact hfromRest (by simp [hu])
                    · rcases hu with hu2 | hu2
                      · exact hfromItems hu2
                      · exact hfromRest (by simp [hu2])
                  · injection h with h1
                    subst h1
                    exact hfromRest hu

/-- C3 amended: for every CSV row accepted by the row parser, the
category is stripped, lower-cased and has every `.` removed; the group
name is the stripped, lower-cased cell with the `research-` prefix; every
role username is the stripped, lower-cased value of some cell of the row;
but the subcategory is only stripped — it is NOT lower-cased (and the
schema id and expiration date cells are taken as-is). -/
theorem C3_accepted_row_normalization (today : String) (domainOk : String → Bool)
    (line : List (String × List String)) (nvd : Bool) (v : String) (row : RowData)
    (h : _process_csv_line today domainOk line nvd v = Except.ok row) :
    row.category = pyRemoveDots (pyLower (pyStrip ((lineGet line "category").headD "")))
    ∧ row.subcategory = pyStrip ((lineGet line "subcategory").headD "")
    ∧ row.groupname = "research-" ++ pyLower (pyStrip ((lineGet line "groupname").headD ""))
    ∧ (∀ u ∈ row.managers ++ row.members ++ row.viewers,
        ∃ col cells raw, (col, cells) ∈ line ∧ raw ∈ cells
          ∧ u = pyLower (pyStrip raw))
    ∧ row.schema_id = (lineGet line "schema_id").headD ""
    ∧ row.expiration_date = (lineGet line "expiration_date").headD "" := by
  unfold _process_csv_line at h
  split at h
  · cases h
  · split at h
    · cases h
    · rename_i managers members viewers hpc
      split at h
      · cases h
      · split at h
        · cases h
        · split at h
          · cases h
          · split at h
            · cases h
            · split at h
              · cases h
              · split at h
                · cases h
                · injection h with h1
                  subst h1
                  refine ⟨rfl, rfl, rfl, ?_, rfl, rfl⟩
                  intro u hu
                  exact processColumns_mem domainOk nvd v line
                    (managers, members, viewers) hpc u hu

/-- Witness for C3 at a concrete accepted row: category
`Test.Automation` becomes `testautomation` (stripped, lower-cased, dots
removed), group name `GroupTeamA` becomes `research-groupteama`, the
manager cell is lower-cased, and the subcategory cell `initial` is kept
as stripped. -/
theorem C3_accepted_row_normalization_witness :
    _process_csv_line "2026-10-12" (fun _ => true)
        [("category", ["Test.Automation"]), ("subcategory", ["initial"]),
         ("groupname", ["GroupTeamA"]), ("manager", ["M.Manager@yoda.dev"])]
        true "1.9"
      = Except.ok ⟨"testautomation", "initial", "research-groupteama",
          ["m.manager@yoda.dev"], [], [], "", ""⟩
    ∧ "testautomation" = pyRemoveDots (pyLower (pyStrip "Test.Automation")) := by
  have h : _process_csv_line "2026-10-12" (fun _ => true)
      [("category", ["Test.Automation"]), ("subcategory", ["initial"]),
       ("groupname", ["GroupTeamA"]), ("manager", ["M.Manager@yoda.dev"])]
      true "1.9"
    = Except.ok ⟨"testautomation", "initial", "research-groupteama",
        ["m.manager@yoda.dev"], [], [], "", ""⟩ := rfl
  have hnorm := C3_accepted_row_normalization "2026-10-12" (fun _ => true)
    [("category", ["Test.Automation"]), ("subcategory", ["initial"]),
     ("groupname", ["GroupTeamA"]), ("manager", ["M.Manager@yoda.dev"])]
    true "1.9"
    ⟨"testautomation", "initial", "research-groupteama",
     ["m.manager@yoda.dev"], [], [], "", ""⟩ h
  exact ⟨h, hnorm.1⟩

/-! ## C5: reportoldvsnewdata.aggregate_by_category -/

/-- A CSV report cell: a string or an integer (Python values in the
rowdata dicts). -/
inductive Cell where
  | s (v : String)
  | i (v : Int)
deriving DecidableEq, Repr

/-- A report row: an insertion-ordered dict from column label to cell. -/
abbrev ReportRow := List (String × Cell)

/-- Python `int(x)` on a report cell: an int is returned as-is, a string
is parsed as an optionally signed decimal integer (with surrounding
whitespace stripped); anything else raises `ValueError` (`none`). -/
def pyParseInt (s : String) : Option Int :=
  match (pyStrip s).data with
  | '-' :: ds =>
    if !ds.isEmpty && ds.all Char.isDigit then some (-(digitsToNat ds : Int)) else none
  | '+' :: ds =>
    if !ds.isEmpty && ds.all Char.isDigit then some ((digitsToNat ds : Int)) else none
  | ds =>
    if !ds.isEmpty && ds.all Char.isDigit then some ((digitsToNat ds : Int)) else none

/-- Python `int(cell)`. -/
def pyIntCell : Cell → Option Int
  | Cell.i n => some n
  | Cell.s v => pyParseInt v

/-- Python `str(cell)`. -/
def pyStr : Cell → String
  | Cell.s v => v
  | Cell.i n => toString n

/-- `d[k] = v` on an insertion-ordered dict: overwrite in place, or
append a fresh key. -/
def dictSet {β : Type} : List (String × β) → String → β → List (String × β)
  | [], k, v => [(k, v)]
  | (k0, v0) :: rest, k, v =>
    if k0 = k then (k0, v) :: rest else (k0, v0) :: dictSet rest k v

/-- One step of `_add_category`'s loop:
`category_data[category][k] = int(rowdata[k])`. -/
def initCellStep (cd : ReportRow) (p : String × Cell) : Option ReportRow :=
  match pyIntCell p.2 with
  | some n => some (dictSet cd p.1 (Cell.i n))
  | none => none

/-- `reportoldvsnewdata.aggregate_by_category._add_category`: the fresh
per-category dict holding the int-converted size columns of the row, in
row key order. -/
def categoryRowInit (rowdata : ReportRow) : Option ReportRow :=
  (rowdata.filter (fun p => pyIn "size" p.1)).foldlM initCellStep []

/-- One step of `_update_category`'s loop:
`category_data[k] = int(category_data[k]) + int(rowdata[k])`. -/
def updStep (rowdata : ReportRow) (cd : ReportRow) (k : String) : Option ReportRow :=
  match cd.lookup k, rowdata.lookup k with
  | some c1, some c2 =>
    match pyIntCell c1, pyIntCell c2 with
    | some n1, some n2 => some (dictSet cd k (Cell.i (n1 + n2)))
    | _, _ => none
  | _, _ => none

/-- `reportoldvsnewdata.aggregate_by_category._update_category`: add the
row's size columns onto the category's accumulated dict, iterating over
the size-containing keys of the accumulated dict. -/
def _update_category (category_data rowdata : ReportRow) : Option ReportRow :=
  (((category_data.map Prod.fst).filter (fun k => pyIn "size" k))).foldlM
    (updStep rowdata) category_data

/-- Insertion into a sorted string list (Python string order). -/
def insertSorted (x : String) : List String → List String
  | [] => [x]
  | y :: ys => if pyStrLe x y then x :: y :: ys else y :: insertSorted x ys

/-- Python `sorted` on the (unique) dict keys. -/
def sortStrings (l : List String) : List String :=
  l.foldr insertSorted []

/-- Lines 231-235 of `aggregate_by_category`: fold one row into the
per-category dict (`_update_category` for a known category,
`_add_category` for a new one). -/
def aggStep (m : List (String × ReportRow)) (rowdata : ReportRow) :
    Option (List (String × ReportRow)) :=
  match rowdata.lookup "Category" with
  | none => none
  | some catCell =>
    match m.lookup (pyStr catCell) with
    | some category_data =>
      match _update_category category_data rowdata with
      | some cd => some (dictSet m (pyStr catCell) cd)
      | none => none
    | none =>
      match categoryRowInit rowdata with
      | some cd => some (dictSet m (pyStr catCell) cd)
      | none => none

/-- Lines 240-247 of `aggregate_by_category`: the output row of one
category — the accumulated size columns with `Category` set to the
category and `Subcategory` / `Group name` forced to `all` (plus the
optional `Environment`). -/
def aggOut (data_by_category : List (String × ReportRow)) (environment : Option String)
    (category : String) : Option ReportRow :=
  match data_by_category.lookup category with
  | none => none
  | some category_data =>
    some (
      let cd := dictSet category_data "Category" (Cell.s category)
      let cd := dictSet cd "Subcategory" (Cell.s "all")
      let cd := dictSet cd "Group name" (Cell.s "all")
      match environment with
      | some e => dictSet cd "Environment" (Cell.s e)
      | none => cd)

/-- `reportoldvsnewdata.aggregate_by_category`.  `none` models the
`KeyError`/`ValueError` crash paths (missing `Category` key, missing or
non-integer size column).  The membership test
`rowdata["Category"] in data_by_category` and the subsequent indexing
`data_by_category[str(rowdata["Category"])]` are embedded uniformly via
`pyStr` (the category cells of the report rows are strings). -/
def aggregate_by_category (inputdata : List ReportRow) (environment : Option String) :
    Option (List ReportRow) := do
  let data_by_category ← inputdata.foldlM aggStep ([] : List (String × ReportRow))
  (sortStrings (data_by_category.map Prod.fst)).mapM
    (aggOut data_by_category environment)

/-- The shape of the per-group rows that `report_oldvsnewdata` feeds into
`aggregate_by_category`: the group/category/subcategory labels followed
by the numeric size columns. -/
def mkGroupRow (g cat sub : String) (sizes : List (String × Int)) : ReportRow :=
  ("Group name", Cell.s g) :: ("Category", Cell.s cat) :: ("Subcategory", Cell.s sub)
    :: sizes.map (fun p => (p.1, Cell.i p.2))

/-- The size columns of a row as int cells. -/
def intRow (sizes : List (String × Int)) : ReportRow :=
  sizes.map (fun p => (p.1, Cell.i p.2))

/-- The aggregated output row of one category. -/
def allRow (cat : String) (sizes : List (String × Int)) : ReportRow :=
  intRow sizes
    ++ [("Category", Cell.s cat), ("Subcategory", Cell.s "all"),
        ("Group name", Cell.s "all")]

/-- Element-wise sum of two aligned size-column lists. -/
def zipSizes (sz1 sz2 : List (String × Int)) : List (String × Int) :=
  (sz1.zip sz2).map (fun p => (p.1.1, p.1.2 + p.2.2))

theorem dictSet_fresh {β : Type} (k : String) (v : β) :
    ∀ (cd : List (String × β)), cd.lookup k = none → dictSet cd k v = cd ++ [(k, v)] := by
  intro cd
  induction cd with
  | nil => intro _; rfl
  | cons p rest ih =>
    obtain ⟨k0, v0⟩ := p
    intro h
    by_cases hk : k0 = k
    · subst hk
      simp [List.lookup] at h
    · have hb : (k == k0) = false := beq_eq_false_iff_ne.mpr (fun he => hk he.symm)
      simp only [List.lookup, hb] at h
      rw [dictSet, if_neg hk, ih h]
      rfl

theorem lookup_cons_ne {β : Type} (k k0 : String) (v0 : β) (rest : List (String × β))
    (h : k ≠ k0) : ((k0, v0) :: rest).lookup k = rest.lookup k := by
  have hb : (k == k0) = false := beq_eq_false_iff_ne.mpr h
  simp [List.lookup, hb]

theorem lookup_cons_self {β : Type} (k : String) (v0 : β) (rest : List (String × β)) :
    ((k, v0) :: rest).lookup k = some v0 := by
  simp [List.lookup]

theorem lookup_intRow_not_size (sz : List (String × Int)) (k : String)
    (hsz : ∀ k2 ∈ sz.map Prod.fst, pyIn "size" k2 = true)
    (hk : pyIn "size" k = false) : (intRow sz).lookup k = none := by
  induction sz with
  | nil => rfl
  | cons p rest ih =>
    obtain ⟨k0, v0⟩ := p
    have hne : k ≠ k0 := by
      intro he
      have := hsz k0 (by simp)
      rw [← he, hk] at this
      cases this
    rw [intRow, List.map_cons, lookup_cons_ne k k0 _ _ hne]
    exact ih (fun k2 hk2 => hsz k2 (by simp [hk2]))

theorem lookup_intRow_of_mem (sz : List (String × Int)) (k : String) (n : Int)
    (hnd : (sz.map Prod.fst).Nodup) (hmem : (k, n) ∈ sz) :
    (intRow sz).lookup k = some (Cell.i n) := by
  induction sz with
  | nil => cases hmem
  | cons p rest ih =>
    obtain ⟨k0, v0⟩ := p
    rcases List.mem_cons.mp hmem with heq | hmem2
    · injection heq with h1 h2
      subst h1
      subst h2
      exact lookup_cons_self _ _ _
    · have hne : k ≠ k0 := by
        intro he
        subst he
        have : k ∈ rest.map Prod.fst := List.mem_map_of_mem Prod.fst hmem2
        rw [List.map_cons] at hnd
        exact (List.nodup_cons.mp hnd).1 this
      rw [intRow, List.map_cons, lookup_cons_ne k k0 _ _ hne]
      exact ih (List.nodup_cons.mp (by rw [List.map_cons] at hnd; exact hnd)).2 hmem2

theorem lookup_append_none {β : Type} (k : String) :
    ∀ (l1 l2 : List (String × β)), l1.lookup k = none →
      (l1 ++ l2).lookup k = l2.lookup k := by
  intro l1
  induction l1 with
  | nil => intro l2 _; rfl
  | cons p rest ih =>
    obtain ⟨k0, v0⟩ := p
    intro l2 h
    by_cases hk : k = k0
    · subst hk
      rw [lookup_cons_self] at h
      cases h
    · rw [lookup_cons_ne k k0 v0 rest hk] at h
      rw [List.cons_append, lookup_cons_ne k k0 v0 _ hk]
      exact ih l2 h

theorem foldInit (entries : List (String × Int)) :
    ∀ (acc : ReportRow),
      (∀ k ∈ entries.map Prod.fst, acc.lookup k = none) →
      (entries.map Prod.fst).Nodup →
      (intRow entries).foldlM initCellStep acc = some (acc ++ intRow entries) := by
  induction entries with
  | nil => intro acc _ _; simp [intRow]
  | cons p rest ih =>
    obtain ⟨k, n⟩ := p
    intro acc hfresh hnd
    rw [intRow, List.map_cons, List.foldlM_cons]
    have hstep : initCellStep acc (k, Cell.i n) = some (acc ++ [(k, Cell.i n)]) := by
      unfold initCellStep
      simp only [pyIntCell]
      rw [dictSet_fresh k (Cell.i n) acc (hfresh k (by simp))]
    rw [hstep]
    rw [show ((some (acc ++ [(k, Cell.i n)]) >>= fun acc2 =>
      List.foldlM initCellStep acc2 (rest.map fun p => (p.1, Cell.i p.2)))
        = List.foldlM initCellStep (acc ++ [(k, Cell.i n)])
            (rest.map fun p => (p.1, Cell.i p.2))) from rfl]
    have hnd2 := (List.nodup_cons.mp (by rw [List.map_cons] at hnd; exact hnd))
    have hfresh2 : ∀ k2 ∈ rest.map Prod.fst, (acc ++ [(k, Cell.i n)]).lookup k2 = none := by
      intro k2 hk2
      rw [lookup_append_none k2 acc _ (hfresh k2 (by simp [hk2]))]
      have hne : k2 ≠ k := fun he => hnd2.1 (he ▸ hk2)
      rw [lookup_cons_ne k2 k _ _ hne]
      rfl
    rw [show List.foldlM initCellStep (acc ++ [(k, Cell.i n)])
        (rest.map fun p => (p.1, Cell.i p.2))
      = (intRow rest).foldlM initCellStep (acc ++ [(k, Cell.i n)]) from rfl]
    rw [ih (acc ++ [(k, Cell.i n)]) hfresh2 hnd2.2]
    simp [intRow]

theorem filter_mkGroupRow (g c s : String) (sz : List (String × Int))
    (hsz : ∀ k ∈ sz.map Prod.fst, pyIn "size" k = true) :
    (mkGroupRow g c s sz).filter (fun p => pyIn "size" p.1) = intRow sz := by
  have hG0 : pyIn "size" "Group name" = false := by decide
  have hC0 : pyIn "size" "Category" = false := by decide
  have hS0 : pyIn "size" "Subcategory" = false := by decide
  have hG : ¬((fun (p : String × Cell) => pyIn "size" p.1) ("Group name", Cell.s g) = true) :=
    fun h => Bool.false_ne_true (hG0.symm.trans h)
  have hC : ¬((fun (p : String × Cell) => pyIn "size" p.1) ("Category", Cell.s c) = true) :=
    fun h => Bool.false_ne_true (hC0.symm.trans h)
  have hS : ¬((fun (p : String × Cell) => pyIn "size" p.1) ("Subcategory", Cell.s s) = true) :=
    fun h => Bool.false_ne_true (hS0.symm.trans h)
  unfold mkGroupRow
  rw [List.filter_cons, List.filter_cons, List.filter_cons]
  rw [if_neg hG, if_neg hC, if_neg hS]
  rw [List.filter_eq_self.mpr]
  · rfl
  · intro p hp
    exact hsz p.1 (by
      rcases List.mem_map.mp hp with ⟨q, hq, heq⟩
      subst heq
      exact List.mem_map_of_mem Prod.fst hq)

theorem categoryRowInit_mkGroupRow (g c s : String) (sz : List (String × Int))
    (hsz : ∀ k ∈ sz.map Prod.fst, pyIn "size" k = true)
    (hnd : (sz.map Prod.fst).Nodup) :
    categoryRowInit (mkGroupRow g c s sz) = some (intRow sz) := by
  unfold categoryRowInit
  rw [filter_mkGroupRow g c s sz hsz]
  rw [foldInit sz [] (fun k _ => rfl) hnd]
  rfl

theorem updFold_cons_skip (rowdata : ReportRow) :
    ∀ (keys : List String) (k0 : String) (c0 : Cell) (cd : ReportRow),
      (∀ k ∈ keys, k ≠ k0) →
      keys.foldlM (updStep rowdata) ((k0, c0) :: cd)
        = (keys.foldlM (updStep rowdata) cd).map (fun cd2 => (k0, c0) :: cd2) := by
  intro keys
  induction keys with
  | nil => intro k0 c0 cd _; rfl
  | cons k keys ih =>
    intro k0 c0 cd h
    have hk0 : k ≠ k0 := h k (by simp)
    have hstep : updStep rowdata ((k0, c0) :: cd) k
        = (updStep rowdata cd k).map (fun cd2 => (k0, c0) :: cd2) := by
      unfold updStep
      rw [lookup_cons_ne k k0 c0 cd hk0]
      rcases cd.lookup k with _ | c1 <;> rcases rowdata.lookup k with _ | c2
      · rfl
      · rfl
      · rfl
      · try dsimp only
        rcases pyIntCell c1 with _ | n1 <;> rcases pyIntCell c2 with _ | n2
        · rfl
        · rfl
        · rfl
        · try dsimp only
          rw [show dictSet ((k0, c0) :: cd) k (Cell.i (n1 + n2))
              = (k0, c0) :: dictSet cd k (Cell.i (n1 + n2)) from by
            rw [dictSet, if_neg (fun he => hk0 he.symm)]]
          rfl
    rw [List.foldlM_cons, List.foldlM_cons, hstep]
    rcases hres : updStep rowdata cd k with _ | cd2
    · rfl
    · rw [show (some cd2).map (fun cd2 => (k0, c0) :: cd2)
          = some ((k0, c0) :: cd2) from rfl]
      rw [show ((some ((k0, c0) :: cd2) >>= fun x =>
          List.foldlM (updStep rowdata) x keys)
        = List.foldlM (updStep rowdata) ((k0, c0) :: cd2) keys) from rfl]
      rw [show ((some cd2 >>= fun x => List.foldlM (updStep rowdata) x keys)
        = List.foldlM (updStep rowdata) cd2 keys) from rfl]
      exact ih k0 c0 cd2 (fun k2 hk2 => h k2 (by simp [hk2]))

theorem updFold_zip (rowdata : ReportRow) :
    ∀ (sz1 sz2 : List (String × Int)),
      sz2.map Prod.fst = sz1.map Prod.fst →
      (sz1.map Prod.fst).Nodup →
      (∀ p ∈ sz2, rowdata.lookup p.1 = some (Cell.i p.2)) →
      (sz1.map Prod.fst).foldlM (updStep rowdata) (intRow sz1)
        = some (intRow (zipSizes sz1 sz2)) := by
  intro sz1
  induction sz1 with
  | nil =>
    intro sz2 hkeys _ _
    rw [List.map_eq_nil_iff.mp hkeys]
    rfl
  | cons p t1 ih =>
    obtain ⟨k1, v1⟩ := p
    intro sz2 hkeys hnd hrow
    rcases sz2 with _ | ⟨q, t2⟩
    · cases hkeys
    · have hk : q.1 = k1 := by
        have h0 := congrArg (fun l => l.headD "") hkeys
        simpa using h0
      have ht : t2.map Prod.fst = t1.map Prod.fst := by
        have h0 := congrArg List.tail hkeys
        simpa using h0
      rw [List.map_cons] at hnd
      have hnd2 := List.nodup_cons.mp hnd
      rw [List.map_cons, List.foldlM_cons]
      have hq := hrow q (by simp)
      rw [hk] at hq
      have hstep : updStep rowdata (intRow ((k1, v1) :: t1)) k1
          = some ((k1, Cell.i (v1 + q.2)) :: intRow t1) := by
        unfold updStep
        rw [show intRow ((k1, v1) :: t1) = (k1, Cell.i v1) :: intRow t1 from rfl]
        rw [lookup_cons_self, hq]
        dsimp only [pyIntCell]
        rw [show dictSet ((k1, Cell.i v1) :: intRow t1) k1 (Cell.i (v1 + q.2))
            = (k1, Cell.i (v1 + q.2)) :: intRow t1 from by
          rw [dictSet, if_pos rfl]]
      rw [show intRow ((k1, v1) :: t1) = (k1, Cell.i v1) :: intRow t1 from rfl] at hstep ⊢
      rw [hstep]
      rw [show ((some ((k1, Cell.i (v1 + q.2)) :: intRow t1) >>= fun x =>
          List.foldlM (updStep rowdata) x (t1.map Prod.fst))
        = List.foldlM (updStep rowdata) ((k1, Cell.i (v1 + q.2)) :: intRow t1)
            (t1.map Prod.fst)) from rfl]
      rw [updFold_cons_skip rowdata (t1.map Prod.fst) k1 (Cell.i (v1 + q.2)) (intRow t1)
        (fun k hk2 => fun he => hnd2.1 (he ▸ hk2))]
      rw [ih t2 ht hnd2.2 (fun p2 hp => hrow p2 (by simp [hp]))]
      rfl

theorem intRow_keys (sz : List (String × Int)) :
    (intRow sz).map Prod.fst = sz.map Prod.fst := by
  unfold intRow
  rw [List.map_map]
  rfl

theorem update_category_mkGroupRow (g c s : String) (sz1 sz2 : List (String × Int))
    (hkeys : sz2.map Prod.fst = sz1.map Prod.fst)
    (hnd : (sz1.map Prod.fst).Nodup)
    (hsz : ∀ k ∈ sz1.map Prod.fst, pyIn "size" k = true) :
    _update_category (intRow sz1) (mkGroupRow g c s sz2)
      = some (intRow (zipSizes sz1 sz2)) := by
  unfold _update_category
  rw [intRow_keys]
  rw [List.filter_eq_self.mpr (fun k hk => hsz k hk)]
  apply updFold_zip _ sz1 sz2 hkeys hnd
  intro p hp
  have hkp : pyIn "size" p.1 = true := by
    apply hsz
    rw [← hkeys]
    exact List.mem_map_of_mem Prod.fst hp
  have h1 : p.1 ≠ "Group name" := fun he => Bool.false_ne_true
    ((by decide : pyIn "size" "Group name" = false).symm.trans (he ▸ hkp))
  have h2 : p.1 ≠ "Category" := fun he => Bool.false_ne_true
    ((by decide : pyIn "size" "Category" = false).symm.trans (he ▸ hkp))
  have h3 : p.1 ≠ "Subcategory" := fun he => Bool.false_ne_true
    ((by decide : pyIn "size" "Subcategory" = false).symm.trans (he ▸ hkp))
  unfold mkGroupRow
  rw [lookup_cons_ne _ _ _ _ h1, lookup_cons_ne _ _ _ _ h2, lookup_cons_ne _ _ _ _ h3]
  exact lookup_intRow_of_mem sz2 p.1 p.2 (by rw [hkeys]; exact hnd) hp

theorem pyLtChars_irrefl : ∀ l : List Char, pyLtChars l l = false := by
  intro l
  induction l with
  | nil => rfl
  | cons a as ih =>
    rw [pyLtChars, if_neg (lt_irrefl a), if_neg (lt_irrefl a)]
    exact ih

theorem pyLtChars_asymm : ∀ l1 l2 : List Char,
    pyLtChars l1 l2 = true → pyLtChars l2 l1 = false := by
  intro l1
  induction l1 with
  | nil =>
    intro l2 h
    rcases l2 with _ | ⟨b, bs⟩
    · cases h
    · rfl
  | cons a as ih =>
    intro l2 h
    rcases l2 with _ | ⟨b, bs⟩
    · cases h
    · rw [pyLtChars] at h
      rw [pyLtChars]
      by_cases hab : a < b
      · rw [if_neg (fun hba => absurd hab (not_lt_of_gt hba))]
        rw [if_pos hab]
      · rw [if_neg hab] at h
        by_cases hba : b < a
        · rw [if_pos hba] at h
          cases h
        · rw [if_neg hba] at h
          rw [if_neg hba, if_neg hab]
          exact ih bs h

theorem pyStrLt_irrefl (s : String) : pyStrLt s s = false :=
  pyLtChars_irrefl s.data

theorem pyStrLt_ne {s t : String} (h : pyStrLt s t = true) : s ≠ t := by
  intro he
  rw [he, pyStrLt_irrefl] at h
  cases h

theorem pyStrLe_of_lt {s t : String} (h : pyStrLt s t = true) : pyStrLe s t = true := by
  unfold pyStrLe
  rw [show pyStrLt t s = pyLtChars t.data s.data from rfl,
    pyLtChars_asymm s.data t.data h]
  rfl

theorem zipSizes_keys : ∀ sz1 sz2 : List (String × Int),
    sz2.map Prod.fst = sz1.map Prod.fst →
    (zipSizes sz1 sz2).map Prod.fst = sz1.map Prod.fst := by
  intro sz1
  induction sz1 with
  | nil => intro sz2 _; rfl
  | cons p t1 ih =>
    intro sz2 h
    rcases sz2 with _ | ⟨q, t2⟩
    · cases h
    · have ht : t2.map Prod.fst = t1.map Prod.fst := by
        have h0 := congrArg List.tail h
        simpa using h0
      obtain ⟨k1, v1⟩ := p
      rw [show zipSizes ((k1, v1) :: t1) (q :: t2)
          = (k1, v1 + q.2) :: zipSizes t1 t2 from rfl]
      rw [List.map_cons, List.map_cons, ih t2 ht]

theorem label_append_allRow (cat : String) (sz : List (String × Int))
    (hsz : ∀ k ∈ sz.map Prod.fst, pyIn "size" k = true) :
    dictSet (dictSet (dictSet (intRow sz) "Category" (Cell.s cat))
        "Subcategory" (Cell.s "all")) "Group name" (Cell.s "all")
      = allRow cat sz := by
  have hC : (intRow sz).lookup "Category" = none :=
    lookup_intRow_not_size sz "Category" hsz (by decide)
  have hS : (intRow sz).lookup "Subcategory" = none :=
    lookup_intRow_not_size sz "Subcategory" hsz (by decide)
  have hG : (intRow sz).lookup "Group name" = none :=
    lookup_intRow_not_size sz "Group name" hsz (by decide)
  rw [dictSet_fresh _ _ _ hC]
  have hS2 : (intRow sz ++ [("Category", Cell.s cat)]).lookup "Subcategory" = none := by
    rw [lookup_append_none _ _ _ hS, lookup_cons_ne _ _ _ _ (by decide)]
    rfl
  rw [dictSet_fresh _ _ _ hS2]
  have hG2 : ((intRow sz ++ [("Category", Cell.s cat)]) ++ [("Subcategory", Cell.s "all")]).lookup "Group name" = none := by
    rw [lookup_append_none _ _ _ (by
      rw [lookup_append_none _ _ _ hG, lookup_cons_ne _ _ _ _ (by decide)]
      rfl), lookup_cons_ne _ _ _ _ (by decide)]
    rfl
  rw [dictSet_fresh _ _ _ hG2]
  unfold allRow
  rw [List.append_assoc, List.append_assoc]
  rfl

theorem lookup_mkGroupRow_category (g c s : String) (sz : List (String × Int)) :
    (mkGroupRow g c s sz).lookup "Category" = some (Cell.s c) := by
  unfold mkGroupRow
  rw [lookup_cons_ne _ _ _ _ (by decide), lookup_cons_self]

theorem aggStep_absent (g c s : String) (sz : List (String × Int))
    (m : List (String × ReportRow)) (hm : m.lookup c = none)
    (hsz : ∀ k ∈ sz.map Prod.fst, pyIn "size" k = true)
    (hnd : (sz.map Prod.fst).Nodup) :
    aggStep m (mkGroupRow g c s sz) = some (dictSet m c (intRow sz)) := by
  unfold aggStep
  rw [lookup_mkGroupRow_category]
  dsimp only [pyStr]
  rw [hm, categoryRowInit_mkGroupRow g c s sz hsz hnd]

theorem aggStep_same (g c s : String) (sz1 sz2 : List (String × Int))
    (hkeys : sz2.map Prod.fst = sz1.map Prod.fst)
    (hnd : (sz1.map Prod.fst).Nodup)
    (hsz : ∀ k ∈ sz1.map Prod.fst, pyIn "size" k = true) :
    aggStep [(c, intRow sz1)] (mkGroupRow g c s sz2)
      = some [(c, intRow (zipSizes sz1 sz2))] := by
  unfold aggStep
  rw [lookup_mkGroupRow_category]
  dsimp only [pyStr]
  rw [lookup_cons_self]
  dsimp only
  rw [update_category_mkGroupRow g c s sz1 sz2 hkeys hnd hsz]
  dsimp only
  rw [show dictSet [(c, intRow sz1)] c (intRow (zipSizes sz1 sz2))
      = [(c, intRow (zipSizes sz1 sz2))] from by rw [dictSet, if_pos rfl]]

theorem aggOut_hit (m : List (String × ReportRow)) (c : String)
    (sz : List (String × Int)) (hm : m.lookup c = some (intRow sz))
    (hsz : ∀ k ∈ sz.map Prod.fst, pyIn "size" k = true) :
    aggOut m none c = some (allRow c sz) := by
  unfold aggOut
  rw [hm]
  dsimp only
  rw [label_append_allRow c sz hsz]

/-- C5: `aggregate_by_category` on two group rows of the same category
yields ONE output row whose numeric size columns are the element-wise
sums of the two input rows, with `Subcategory` and `Group name` forced to
`all`; on two group rows of different categories it yields TWO separate
output rows (in sorted category order), each with its own unaggregated
size columns. -/
theorem C5_aggregate_by_category
    (c c1 c2 g1 g2 s1 s2 : String) (sz1 sz2 : List (String × Int))
    (hnd : (sz1.map Prod.fst).Nodup)
    (hkeys : sz2.map Prod.fst = sz1.map Prod.fst)
    (hsz : ∀ k ∈ sz1.map Prod.fst, pyIn "size" k = true) :
    aggregate_by_category [mkGroupRow g1 c s1 sz1, mkGroupRow g2 c s2 sz2] none
        = some [allRow c (zipSizes sz1 sz2)]
    ∧ (pyStrLt c1 c2 = true →
       aggregate_by_category [mkGroupRow g1 c1 s1 sz1, mkGroupRow g2 c2 s2 sz2] none
         = some [allRow c1 sz1, allRow c2 sz2]) := by
  have hnd2 : (sz2.map Prod.fst).Nodup := by rw [hkeys]; exact hnd
  have hsz2 : ∀ k ∈ sz2.map Prod.fst, pyIn "size" k = true := by
    rw [hkeys]; exact hsz
  constructor
  · unfold aggregate_by_category
    have h1 : aggStep [] (mkGroupRow g1 c s1 sz1) = some [(c, intRow sz1)] := by
      have h := aggStep_absent g1 c s1 sz1 [] rfl hsz hnd
      rwa [show dictSet ([] : List (String × ReportRow)) c (intRow sz1)
          = [(c, intRow sz1)] from rfl] at h
    have hfold : List.foldlM aggStep ([] : List (String × ReportRow))
        [mkGroupRow g1 c s1 sz1, mkGroupRow g2 c s2 sz2]
        = some [(c, intRow (zipSizes sz1 sz2))] := by
      rw [List.foldlM_cons, h1]
      rw [show ((some [(c, intRow sz1)] >>= fun x =>
          List.foldlM aggStep x [mkGroupRow g2 c s2 sz2])
        = List.foldlM aggStep [(c, intRow sz1)] [mkGroupRow g2 c s2 sz2]) from rfl]
      rw [List.foldlM_cons, aggStep_same g2 c s2 sz1 sz2 hkeys hnd hsz]
      rfl
    rw [hfold]
    show (sortStrings ([(c, intRow (zipSizes sz1 sz2))].map Prod.fst)).mapM
        (aggOut [(c, intRow (zipSizes sz1 sz2))] none)
      = some [allRow c (zipSizes sz1 sz2)]
    rw [show sortStrings ([(c, intRow (zipSizes sz1 sz2))].map Prod.fst)
        = [c] from rfl]
    have ho : aggOut [(c, intRow (zipSizes sz1 sz2))] none c
        = some (allRow c (zipSizes sz1 sz2)) :=
      aggOut_hit _ c (zipSizes sz1 sz2) (lookup_cons_self _ _ _)
        (by rw [zipSizes_keys sz1 sz2 hkeys]; exact hsz)
    simp only [List.mapM_cons, List.mapM_nil, ho]
    rfl
  · intro hlt
    have hne : c1 ≠ c2 := pyStrLt_ne hlt
    have hle : pyStrLe c1 c2 = true := pyStrLe_of_lt hlt
    unfold aggregate_by_category
    have h1 : aggStep [] (mkGroupRow g1 c1 s1 sz1) = some [(c1, intRow sz1)] := by
      have h := aggStep_absent g1 c1 s1 sz1 [] rfl hsz hnd
      rwa [show dictSet ([] : List (String × ReportRow)) c1 (intRow sz1)
          = [(c1, intRow sz1)] from rfl] at h
    have h2 : aggStep [(c1, intRow sz1)] (mkGroupRow g2 c2 s2 sz2)
        = some [(c1, intRow sz1), (c2, intRow sz2)] := by
      have h := aggStep_absent g2 c2 s2 sz2 [(c1, intRow sz1)]
        (by
          rw [lookup_cons_ne _ _ _ _ (fun he => hne he.symm)]
          rfl) hsz2 hnd2
      rwa [show dictSet [(c1, intRow sz1)] c2 (intRow sz2)
          = [(c1, intRow sz1), (c2, intRow sz2)] from by
        rw [dictSet, if_neg hne]
        rfl] at h
    have hfold : List.foldlM aggStep ([] : List (String × ReportRow))
        [mkGroupRow g1 c1 s1 sz1, mkGroupRow g2 c2 s2 sz2]
        = some [(c1, intRow sz1), (c2, intRow sz2)] := by
      rw [List.foldlM_cons, h1]
      rw [show ((some [(c1, intRow sz1)] >>= fun x =>
          List.foldlM aggStep x [mkGroupRow g2 c2 s2 sz2])
        = List.foldlM aggStep [(c1, intRow sz1)] [mkGroupRow g2 c2 s2 sz2]) from rfl]
      rw [List.foldlM_cons, h2]
      rfl
    rw [hfold]
    show (sortStrings ([(c1, intRow sz1), (c2, intRow sz2)].map Prod.fst)).mapM
        (aggOut [(c1, intRow sz1), (c2, intRow sz2)] none)
      = some [allRow c1 sz1, allRow c2 sz2]
    rw [show sortStrings ([(c1, intRow sz1), (c2, intRow sz2)].map Prod.fst)
        = insertSorted c1 [c2] from rfl]
    rw [show insertSorted c1 [c2]
        = if pyStrLe c1 c2 then [c1, c2] else [c2, c1] from rfl]
    rw [if_pos hle]
    have ho1 : aggOut [(c1, intRow sz1), (c2, intRow sz2)] none c1
        = some (allRow c1 sz1) :=
      aggOut_hit _ c1 sz1 (lookup_cons_self _ _ _) hsz
    have ho2 : aggOut [(c1, intRow sz1), (c2, intRow sz2)] none c2
        = some (allRow c2 sz2) :=
      aggOut_hit _ c2 sz2 (by
        rw [lookup_cons_ne _ _ _ _ (fun he => hne he.symm)]
        exact lookup_cons_self _ _ _) hsz2
    simp only [List.mapM_cons, List.mapM_nil, ho1, ho2]
    rfl

/-- Witness for C5 on concrete rows: two groups of category `dep` with
size columns (10, 20) and (30, 40) aggregate to one `all` row (40, 60);
two groups of categories `alpha` and `beta` stay two rows. -/
theorem C5_aggregate_by_category_witness :
    aggregate_by_category
        [mkGroupRow "g1" "dep" "t1"
          [("Research collection size (both)", 10), ("Total size (both)", 20)],
         mkGroupRow "g2" "dep" "t2"
          [("Research collection size (both)", 30), ("Total size (both)", 40)]] none
      = some [allRow "dep"
          [("Research collection size (both)", 40), ("Total size (both)", 60)]]
    ∧ aggregate_by_category
        [mkGroupRow "g1" "alpha" "t1" [("Total size (both)", 10)],
         mkGroupRow "g2" "beta" "t2" [("Total size (both)", 30)]] none
      = some [allRow "alpha" [("Total size (both)", 10)],
              allRow "beta" [("Total size (both)", 30)]] := by
  constructor
  · have h := C5_aggregate_by_category "dep" "x" "y" "g1" "g2" "t1" "t2"
      [("Research collection size (both)", 10), ("Total size (both)", 20)]
      [("Research collection size (both)", 30), ("Total size (both)", 40)]
      (by decide) rfl (by decide)
    exact h.1
  · have h := C5_aggregate_by_category "dep" "alpha" "beta" "g1" "g2" "t1" "t2"
      [("Total size (both)", 10)] [("Total size (both)", 30)]
      (by decide) rfl (by decide)
    exact h.2 (by decide)

/-! ## C6: expiration date validation -/

theorem digitChar_isDigit : ∀ n < 10, (Nat.digitChar n).isDigit = true := by decide

theorem digitChar_ne_dash : ∀ n < 10, Nat.digitChar n ≠ '-' := by decide

theorem digitChar_toNat : ∀ n < 10, (Nat.digitChar n).toNat = 48 + n := by decide

theorem digitChar_lt_iff : ∀ a < 10, ∀ b < 10,
    (Nat.digitChar a < Nat.digitChar b ↔ a < b) := by decide

theorem digitChar_ne_zero : ∀ n, 1 ≤ n → n < 10 → Nat.digitChar n ≠ '0' := by decide

theorem splitOnDash_ne_nil : ∀ l : List Char, splitOnDash l ≠ [] := by
  intro l
  induction l with
  | nil => simp [splitOnDash]
  | cons c rest ih =>
    rw [splitOnDash]
    by_cases hc : c = '-'
    · rw [if_pos hc]
      simp
    · rw [if_neg hc]
      rcases hs : splitOnDash rest with _ | ⟨p, ps⟩
      · simp
      · simp

theorem splitOnDash_no_dash : ∀ l : List Char, (∀ c ∈ l, c ≠ '-') →
    splitOnDash l = [l] := by
  intro l
  induction l with
  | nil => intro _; rfl
  | cons c rest ih =>
    intro h
    rw [splitOnDash, if_neg (h c (by simp)), ih (fun c2 hc2 => h c2 (by simp [hc2]))]

theorem splitOnDash_dash_append : ∀ (l1 l2 : List Char), (∀ c ∈ l1, c ≠ '-') →
    splitOnDash (l1 ++ '-' :: l2) = l1 :: splitOnDash l2 := by
  intro l1
  induction l1 with
  | nil =>
    intro l2 _
    rw [List.nil_append, splitOnDash, if_pos rfl]
  | cons c t ih =>
    intro l2 h
    rw [List.cons_append, splitOnDash, if_neg (h c (by simp))]
    rw [ih l2 (fun c2 hc2 => h c2 (by simp [hc2]))]

theorem pad2_no_dash (n : Nat) : ∀ c ∈ pad2 n, c ≠ '-' := by
  intro c hc
  simp only [pad2, List.mem_cons, List.not_mem_nil, or_false] at hc
  rcases hc with rfl | rfl
  · exact digitChar_ne_dash _ (by omega)
  · exact digitChar_ne_dash _ (by omega)

theorem pad4_no_dash (n : Nat) : ∀ c ∈ pad4 n, c ≠ '-' := by
  intro c hc
  simp only [pad4, List.mem_cons, List.not_mem_nil, or_false] at hc
  rcases hc with rfl | rfl | rfl | rfl
  · exact digitChar_ne_dash _ (by omega)
  · exact digitChar_ne_dash _ (by omega)
  · exact digitChar_ne_dash _ (by omega)
  · exact digitChar_ne_dash _ (by omega)

theorem glibcYear_no_dash (y : Nat) : ∀ c ∈ glibcYear y, c ≠ '-' := by
  intro c hc
  unfold glibcYear at hc
  rcases hd : (pad4 y).dropWhile (fun c => c = '0') with _ | ⟨p, ps⟩
  · rw [hd] at hc
    simp only [List.mem_singleton] at hc
    subst hc
    decide
  · rw [hd] at hc
    have hsub : c ∈ pad4 y := by
      have hsl := List.dropWhile_sublist (l := pad4 y) (p := fun c => c = '0')
      rw [hd] at hsl
      exact hsl.mem hc
    exact pad4_no_dash y c hsub

theorem glibcYear_eq_pad4 (y : Nat) (h1 : 1000 ≤ y) (h2 : y ≤ 9999) :
    glibcYear y = pad4 y := by
  unfold glibcYear
  have hd : (pad4 y).dropWhile (fun c => c = '0') = pad4 y := by
    unfold pad4
    rw [List.dropWhile_cons]
    rw [if_neg (by
      simp only [decide_eq_true_eq]
      exact digitChar_ne_zero (y / 1000 % 10) (by omega) (by omega))]
  rw [hd]
  unfold pad4
  rfl

theorem glibcYear_length_le (y : Nat) (h : y ≤ 999) : (glibcYear y).length ≤ 3 := by
  unfold glibcYear
  have h0 : y / 1000 % 10 = 0 := by omega
  have hd : (pad4 y).dropWhile (fun c => c = '0')
      = ([Nat.digitChar (y / 100 % 10), Nat.digitChar (y / 10 % 10),
          Nat.digitChar (y % 10)] : List Char).dropWhile (fun c => c = '0') := by
    unfold pad4
    rw [h0]
    rw [List.dropWhile_cons, if_pos (by decide)]
  rw [hd]
  rcases hres : ([Nat.digitChar (y / 100 % 10), Nat.digitChar (y / 10 % 10),
      Nat.digitChar (y % 10)] : List Char).dropWhile (fun c => c = '0') with _ | ⟨p, ps⟩
  · decide
  · have hlen := (List.dropWhile_sublist
      (l := ([Nat.digitChar (y / 100 % 10), Nat.digitChar (y / 10 % 10),
        Nat.digitChar (y % 10)] : List Char)) (p := fun c => c = '0')).length_le
    rw [hres] at hlen
    simpa using hlen

theorem digitsToNat_pad2 (n : Nat) (h : n ≤ 99) : digitsToNat (pad2 n) = n := by
  unfold digitsToNat pad2
  rw [List.foldl_cons, List.foldl_cons, List.foldl_nil]
  rw [digitChar_toNat _ (by omega), digitChar_toNat _ (by omega)]
  omega

theorem digitsToNat_pad4 (n : Nat) (h : n ≤ 9999) : digitsToNat (pad4 n) = n := by
  unfold digitsToNat pad4
  rw [List.foldl_cons, List.foldl_cons, List.foldl_cons, List.foldl_cons, List.foldl_nil]
  rw [digitChar_toNat _ (by omega), digitChar_toNat _ (by omega),
    digitChar_toNat _ (by omega), digitChar_toNat _ (by omega)]
  omega

theorem pad2_all_digit (n : Nat) : (pad2 n).all Char.isDigit = true := by
  unfold pad2
  simp only [List.all_cons, List.all_nil, Bool.and_true]
  rw [digitChar_isDigit _ (by omega), digitChar_isDigit _ (by omega)]
  rfl

theorem pad4_all_digit (n : Nat) : (pad4 n).all Char.isDigit = true := by
  unfold pad4
  simp only [List.all_cons, List.all_nil, Bool.and_true]
  rw [digitChar_isDigit _ (by omega), digitChar_isDigit _ (by omega),
    digitChar_isDigit _ (by omega), digitChar_isDigit _ (by omega)]
  rfl

theorem strftimeYmd_data (y m d : Nat) :
    (strftimeYmd y m d).data = glibcYear y ++ '-' :: pad2 m ++ '-' :: pad2 d := rfl

theorem splitOnDash_strftime (y m d : Nat) :
    splitOnDash (strftimeYmd y m d).data = [glibcYear y, pad2 m, pad2 d] := by
  rw [strftimeYmd_data, List.append_assoc, List.cons_append]
  rw [splitOnDash_dash_append (glibcYear y) _ (glibcYear_no_dash y)]
  rw [splitOnDash_dash_append (pad2 m) _ (pad2_no_dash m)]
  rw [splitOnDash_no_dash (pad2 d) (pad2_no_dash d)]

theorem isDigit_toNat (c : Char) (h : c.isDigit = true) :
    48 ≤ c.toNat ∧ c.toNat ≤ 57 := by
  simp only [Char.isDigit, Bool.and_eq_true, decide_eq_true_eq] at h
  exact ⟨h.1, h.2⟩

theorem foldl_digits_lt (l : List Char) :
    ∀ acc : Nat, l.all Char.isDigit = true →
      l.foldl (fun acc c => acc * 10 + (c.toNat - 48)) acc < (acc + 1) * 10 ^ l.length := by
  induction l with
  | nil =>
    intro acc _
    simp
  | cons c t ih =>
    intro acc hall
    rw [List.all_cons, Bool.and_eq_true] at hall
    have hc := isDigit_toNat c hall.1
    rw [List.foldl_cons]
    calc t.foldl (fun acc c => acc * 10 + (c.toNat - 48)) (acc * 10 + (c.toNat - 48))
        < (acc * 10 + (c.toNat - 48) + 1) * 10 ^ t.length := ih _ hall.2
      _ ≤ ((acc + 1) * 10) * 10 ^ t.length :=
          Nat.mul_le_mul_right _ (by omega)
      _ = (acc + 1) * 10 ^ (c :: t).length := by
          rw [List.length_cons, pow_succ]
          ring

theorem digitsToNat_lt (l : List Char) (h : l.all Char.isDigit = true) :
    digitsToNat l < 10 ^ l.length := by
  have := foldl_digits_lt l 0 h
  unfold digitsToNat
  simpa using this

theorem daysInMonth_le (y m : Nat) : daysInMonth y m ≤ 31 := by
  unfold daysInMonth
  split_ifs <;> omega

theorem strptime_strftime (y m d : Nat) (hy1 : 1000 ≤ y) (hy2 : y ≤ 9999)
    (hm1 : 1 ≤ m) (hm2 : m ≤ 12) (hd1 : 1 ≤ d) (hd2 : d ≤ daysInMonth y m) :
    strptimeYmd (strftimeYmd y m d) = some (y, m, d) := by
  have hd99 : d ≤ 99 := le_trans hd2 (le_trans (daysInMonth_le y m) (by omega))
  have h1 : (pad4 y).all Char.isDigit = true := pad4_all_digit y
  have h2 : (pad4 y).length = 4 := rfl
  have h3 : digitsToNat (pad4 y) = y := digitsToNat_pad4 y (by omega)
  have h4 : (pad2 m).all Char.isDigit = true := pad2_all_digit m
  have h5 : (pad2 m).length = 2 := rfl
  have h6 : digitsToNat (pad2 m) = m := digitsToNat_pad2 m (by omega)
  have h7 : (pad2 d).all Char.isDigit = true := pad2_all_digit d
  have h8 : (pad2 d).length = 2 := rfl
  have h9 : digitsToNat (pad2 d) = d := digitsToNat_pad2 d hd99
  unfold strptimeYmd
  rw [splitOnDash_strftime y m d, glibcYear_eq_pad4 y hy1 hy2]
  dsimp only
  split
  · rw [h3, h6, h9]
  · rename_i hcond
    exfalso
    apply hcond
    rw [h3, h6, h9]
    simp only [Bool.and_eq_true, decide_eq_true_eq]
    exact ⟨⟨⟨⟨⟨⟨⟨⟨⟨⟨⟨⟨h1, h2⟩, by omega⟩, h4⟩, by rw [h5]; omega⟩, le_of_eq h5⟩,
      hm1⟩, hm2⟩, h7⟩, by rw [h8]; omega⟩, le_of_eq h8⟩, hd1⟩, hd2⟩

theorem pyLtChars_digit_cons (a b : Nat) (ha : a < 10) (hb : b < 10)
    (l1 l2 : List Char) :
    pyLtChars (Nat.digitChar a :: l1) (Nat.digitChar b :: l2)
      = if a < b then true else if b < a then false else pyLtChars l1 l2 := by
  rw [pyLtChars]
  by_cases hab : a < b
  · rw [if_pos ((digitChar_lt_iff a ha b hb).mpr hab), if_pos hab]
  · rw [if_neg (fun h => hab ((digitChar_lt_iff a ha b hb).mp h)), if_neg hab]
    by_cases hba : b < a
    · rw [if_pos ((digitChar_lt_iff b hb a ha).mpr hba), if_pos hba]
    · rw [if_neg (fun h => hba ((digitChar_lt_iff b hb a ha).mp h)), if_neg hba]

theorem pyLtChars_dash (l1 l2 : List Char) :
    pyLtChars ('-' :: l1) ('-' :: l2) = pyLtChars l1 l2 := by
  rw [pyLtChars, if_neg (lt_irrefl _), if_neg (lt_irrefl _)]

theorem strftime_chars (y m d : Nat) (hy1 : 1000 ≤ y) (hy2 : y ≤ 9999) :
    (strftimeYmd y m d).data
      = Nat.digitChar (y / 1000 % 10) :: Nat.digitChar (y / 100 % 10)
        :: Nat.digitChar (y / 10 % 10) :: Nat.digitChar (y % 10)
        :: '-' :: Nat.digitChar (m / 10 % 10) :: Nat.digitChar (m % 10)
        :: '-' :: Nat.digitChar (d / 10 % 10) :: Nat.digitChar (d % 10) :: [] := by
  rw [strftimeYmd_data, glibcYear_eq_pad4 y hy1 hy2]
  rfl

/-- Lexicographic comparison of aligned digit pairs, in the shape produced
by unfolding `pyLtChars` on two equal-length digit strings. -/
def lexLtP : List (Nat × Nat) → Prop
  | [] => False
  | p :: t => p.1 < p.2 ∨ (¬p.1 < p.2 ∧ ¬p.2 < p.1 ∧ lexLtP t)

/-- The number denoted by one side of a digit-pair list. -/
def digitsVal (f : Nat × Nat → Nat) : List (Nat × Nat) → Nat
  | [] => 0
  | p :: t => f p * 10 ^ t.length + digitsVal f t

theorem digitsVal_lt_pow (f : Nat × Nat → Nat) :
    ∀ l : List (Nat × Nat), (∀ p ∈ l, f p ≤ 9) →
      digitsVal f l < 10 ^ l.length := by
  intro l
  induction l with
  | nil =>
    intro _
    simp [digitsVal]
  | cons p t ih =>
    intro h
    rw [digitsVal, List.length_cons, pow_succ]
    have h1 := ih (fun q hq => h q (by simp [hq]))
    have h2 : f p ≤ 9 := h p (by simp)
    calc f p * 10 ^ t.length + digitsVal f t
        < f p * 10 ^ t.length + 10 ^ t.length := Nat.add_lt_add_left h1 _
      _ = (f p + 1) * 10 ^ t.length := by ring
      _ ≤ 10 * 10 ^ t.length := Nat.mul_le_mul_right _ (by omega)
      _ = 10 ^ t.length * 10 := by ring

theorem lexLtP_iff : ∀ l : List (Nat × Nat), (∀ p ∈ l, p.1 ≤ 9 ∧ p.2 ≤ 9) →
    (lexLtP l ↔ digitsVal (fun p => p.1) l < digitsVal (fun p => p.2) l) := by
  intro l
  induction l with
  | nil =>
    intro _
    simp [lexLtP, digitsVal]
  | cons p t ih =>
    intro h
    have hv1 := digitsVal_lt_pow (fun q => q.1) t (fun q hq => (h q (by simp [hq])).1)
    have hv2 := digitsVal_lt_pow (fun q => q.2) t (fun q hq => (h q (by simp [hq])).2)
    rw [show lexLtP (p :: t) = (p.1 < p.2 ∨ (¬p.1 < p.2 ∧ ¬p.2 < p.1 ∧ lexLtP t)) from rfl]
    rw [show digitsVal (fun q => q.1) (p :: t)
        = p.1 * 10 ^ t.length + digitsVal (fun q => q.1) t from rfl]
    rw [show digitsVal (fun q => q.2) (p :: t)
        = p.2 * 10 ^ t.length + digitsVal (fun q => q.2) t from rfl]
    rw [ih (fun q hq => h q (by simp [hq]))]
    constructor
    · rintro (hlt | ⟨hn1, hn2, hv⟩)
      · calc p.1 * 10 ^ t.length + digitsVal (fun q => q.1) t
            < p.1 * 10 ^ t.length + 10 ^ t.length := Nat.add_lt_add_left hv1 _
          _ = (p.1 + 1) * 10 ^ t.length := by ring
          _ ≤ p.2 * 10 ^ t.length := Nat.mul_le_mul_right _ hlt
          _ ≤ p.2 * 10 ^ t.length + digitsVal (fun q => q.2) t := Nat.le_add_right _ _
      · have he : p.1 = p.2 := by omega
        rw [he]
        exact Nat.add_lt_add_left hv _
    · intro hlt
      by_cases h1 : p.1 < p.2
      · exact Or.inl h1
      · by_cases h2 : p.2 < p.1
        · exfalso
          have hchain : p.2 * 10 ^ t.length + digitsVal (fun q => q.2) t
              < p.1 * 10 ^ t.length + digitsVal (fun q => q.1) t :=
            calc p.2 * 10 ^ t.length + digitsVal (fun q => q.2) t
                < p.2 * 10 ^ t.length + 10 ^ t.length := Nat.add_lt_add_left hv2 _
              _ = (p.2 + 1) * 10 ^ t.length := by ring
              _ ≤ p.1 * 10 ^ t.length := Nat.mul_le_mul_right _ h2
              _ ≤ p.1 * 10 ^ t.length + digitsVal (fun q => q.1) t := Nat.le_add_right _ _
          exact lt_asymm hlt hchain
        · have he : p.1 = p.2 := by omega
          refine Or.inr ⟨h1, h2, ?_⟩
          rw [he] at hlt
          exact Nat.lt_of_add_lt_add_left hlt

theorem lt_if_chain (a b : Nat) (r : Bool) :
    ((if a < b then true else if b < a then false else r) = true)
      ↔ (a < b ∨ (¬a < b ∧ ¬b < a ∧ r = true)) := by
  by_cases h1 : a < b
  · rw [if_pos h1]
    simp [h1]
  · rw [if_neg h1]
    by_cases h2 : b < a
    · rw [if_pos h2]
      simp [h1, h2]
    · rw [if_neg h2]
      simp [h1, h2]

set_option maxHeartbeats 2000000 in
theorem strftime_lt_iff (y1 m1 d1 y2 m2 d2 : Nat)
    (hy1a : 1000 ≤ y1) (hy1b : y1 ≤ 9999) (hm1 : m1 ≤ 99) (hd1 : d1 ≤ 99)
    (hy2a : 1000 ≤ y2) (hy2b : y2 ≤ 9999) (hm2 : m2 ≤ 99) (hd2 : d2 ≤ 99) :
    pyStrLt (strftimeYmd y1 m1 d1) (strftimeYmd y2 m2 d2) = true
      ↔ y1 * 10000 + m1 * 100 + d1 < y2 * 10000 + m2 * 100 + d2 := by
  unfold pyStrLt
  rw [strftime_chars y1 m1 d1 hy1a hy1b, strftime_chars y2 m2 d2 hy2a hy2b]
  rw [pyLtChars_digit_cons (y1 / 1000 % 10) (y2 / 1000 % 10) (by omega) (by omega)]
  rw [pyLtChars_digit_cons (y1 / 100 % 10) (y2 / 100 % 10) (by omega) (by omega)]
  rw [pyLtChars_digit_cons (y1 / 10 % 10) (y2 / 10 % 10) (by omega) (by omega)]
  rw [pyLtChars_digit_cons (y1 % 10) (y2 % 10) (by omega) (by omega)]
  rw [pyLtChars_dash]
  rw [pyLtChars_digit_cons (m1 / 10 % 10) (m2 / 10 % 10) (by omega) (by omega)]
  rw [pyLtChars_digit_cons (m1 % 10) (m2 % 10) (by omega) (by omega)]
  rw [pyLtChars_dash]
  rw [pyLtChars_digit_cons (d1 / 10 % 10) (d2 / 10 % 10) (by omega) (by omega)]
  rw [pyLtChars_digit_cons (d1 % 10) (d2 % 10) (by omega) (by omega)]
  rw [show pyLtChars ([] : List Char) [] = false from rfl]
  rw [lt_if_chain, lt_if_chain, lt_if_chain, lt_if_chain, lt_if_chain,
    lt_if_chain, lt_if_chain, lt_if_chain]
  simp only [Bool.false_eq_true]
  set A1 := y1 / 1000 % 10 with hA1
  set A2 := y1 / 100 % 10 with hA2
  set A3 := y1 / 10 % 10 with hA3
  set A4 := y1 % 10 with hA4
  set B1 := y2 / 1000 % 10 with hB1
  set B2 := y2 / 100 % 10 with hB2
  set B3 := y2 / 10 % 10 with hB3
  set B4 := y2 % 10 with hB4
  set C1 := m1 / 10 % 10 with hC1
  set C2 := m1 % 10 with hC2
  set D1 := m2 / 10 % 10 with hD1
  set D2 := m2 % 10 with hD2
  set E1 := d1 / 10 % 10 with hE1
  set E2 := d1 % 10 with hE2
  set F1 := d2 / 10 % 10 with hF1
  set F2 := d2 % 10 with hF2
  have b1 : A1 ≤ 9 := by omega
  have b2 : A2 ≤ 9 := by omega
  have b3 : A3 ≤ 9 := by omega
  have b4 : A4 ≤ 9 := by omega
  have b5 : B1 ≤ 9 := by omega
  have b6 : B2 ≤ 9 := by omega
  have b7 : B3 ≤ 9 := by omega
  have b8 : B4 ≤ 9 := by omega
  have b9 : C1 ≤ 9 := by omega
  have b10 : C2 ≤ 9 := by omega
  have b11 : D1 ≤ 9 := by omega
  have b12 : D2 ≤ 9 := by omega
  have b13 : E1 ≤ 9 := by omega
  have b14 : E2 ≤ 9 := by omega
  have b15 : F1 ≤ 9 := by omega
  have b16 : F2 ≤ 9 := by omega
  have e1 : y1 = A1 * 1000 + A2 * 100 + A3 * 10 + A4 := by
    rw [hA1, hA2, hA3, hA4]
    omega
  have e2 : y2 = B1 * 1000 + B2 * 100 + B3 * 10 + B4 := by
    rw [hB1, hB2, hB3, hB4]
    omega
  have e3 : m1 = C1 * 10 + C2 := by
    rw [hC1, hC2]
    omega
  have e4 : m2 = D1 * 10 + D2 := by
    rw [hD1, hD2]
    omega
  have e5 : d1 = E1 * 10 + E2 := by
    rw [hE1, hE2]
    omega
  have e6 : d2 = F1 * 10 + F2 := by
    rw [hF1, hF2]
    omega
  clear hA1 hA2 hA3 hA4 hB1 hB2 hB3 hB4 hC1 hC2 hD1 hD2 hE1 hE2 hF1 hF2
  clear_value A1 A2 A3 A4 B1 B2 B3 B4 C1 C2 D1 D2 E1 E2 F1 F2
  have hbounds : ∀ p ∈ [(A1, B1), (A2, B2), (A3, B3), (A4, B4),
      (C1, D1), (C2, D2), (E1, F1), (E2, F2)], p.1 ≤ 9 ∧ p.2 ≤ 9 := by
    intro p hp
    simp only [List.mem_cons, List.not_mem_nil, or_false] at hp
    rcases hp with rfl | rfl | rfl | rfl | rfl | rfl | rfl | rfl
    · exact ⟨b1, b5⟩
    · exact ⟨b2, b6⟩
    · exact ⟨b3, b7⟩
    · exact ⟨b4, b8⟩
    · exact ⟨b9, b11⟩
    · exact ⟨b10, b12⟩
    · exact ⟨b13, b15⟩
    · exact ⟨b14, b16⟩
  have hgoal : digitsVal (fun p => p.1) [(A1, B1), (A2, B2), (A3, B3), (A4, B4),
        (C1, D1), (C2, D2), (E1, F1), (E2, F2)]
      < digitsVal (fun p => p.2) [(A1, B1), (A2, B2), (A3, B3), (A4, B4),
        (C1, D1), (C2, D2), (E1, F1), (E2, F2)]
      ↔ y1 * 10000 + m1 * 100 + d1 < y2 * 10000 + m2 * 100 + d2 := by
    simp only [digitsVal, List.length_cons, List.length_nil]
    norm_num
    omega
  exact (lexLtP_iff [(A1, B1), (A2, B2), (A3, B3), (A4, B4),
    (C1, D1), (C2, D2), (E1, F1), (E2, F2)] hbounds).trans hgoal

theorem strftime_le_iff (y1 m1 d1 y2 m2 d2 : Nat)
    (hy1a : 1000 ≤ y1) (hy1b : y1 ≤ 9999) (hm1 : m1 ≤ 99) (hd1 : d1 ≤ 99)
    (hy2a : 1000 ≤ y2) (hy2b : y2 ≤ 9999) (hm2 : m2 ≤ 99) (hd2 : d2 ≤ 99) :
    pyStrLe (strftimeYmd y1 m1 d1) (strftimeYmd y2 m2 d2) = true
      ↔ y1 * 10000 + m1 * 100 + d1 ≤ y2 * 10000 + m2 * 100 + d2 := by
  unfold pyStrLe
  have h := strftime_lt_iff y2 m2 d2 y1 m1 d1 hy2a hy2b hm2 hd2 hy1a hy1b hm1 hd1
  cases hb : pyStrLt (strftimeYmd y2 m2 d2) (strftimeYmd y1 m1 d1)
  · rw [hb] at h
    simp only [Bool.false_eq_true, false_iff, not_lt] at h
    rw [show (!false) = true from rfl]
    exact iff_of_true rfl (by omega)
  · rw [hb] at h
    simp only [true_iff] at h
    rw [show (!true) = false from rfl]
    exact iff_of_false (by simp) (by omega)

theorem strftime_ne_empty (y m d : Nat) (hy1 : 1000 ≤ y) (hy2 : y ≤ 9999) :
    strftimeYmd y m d ≠ "" := by
  intro h
  have hlen : (strftimeYmd y m d).data.length = 0 := by rw [h]; rfl
  rw [strftime_chars y m d hy1 hy2] at hlen
  simp at hlen

theorem strftime_ne_dot (y m d : Nat) (hy1 : 1000 ≤ y) (hy2 : y ≤ 9999) :
    strftimeYmd y m d ≠ "." := by
  intro h
  have hlen : (strftimeYmd y m d).data.length = 1 := by rw [h]; rfl
  rw [strftime_chars y m d hy1 hy2] at hlen
  simp at hlen

theorem strptime_some_elim (s : String) (y m d : Nat)
    (h : strptimeYmd s = some (y, m, d)) :
    ∃ ys ms ds : List Char, splitOnDash s.data = [ys, ms, ds] ∧
      ys.length = 4 ∧ digitsToNat ys = y ∧ y ≤ 9999 ∧
      1 ≤ m ∧ m ≤ 12 ∧ 1 ≤ d ∧ d ≤ daysInMonth y m := by
  unfold strptimeYmd at h
  split at h
  · rename_i ys ms ds heq
    dsimp only at h
    split at h
    · rename_i hcond
      injection h with h'
      injection h' with hy h''
      injection h'' with hm hd
      simp only [Bool.and_eq_true, decide_eq_true_eq] at hcond
      obtain ⟨⟨⟨⟨⟨⟨⟨⟨⟨⟨⟨⟨c1, c2⟩, c3⟩, c4⟩, c5⟩, c6⟩, c7⟩, c8⟩, c9⟩, c10⟩,
        c11⟩, c12⟩, c13⟩ := hcond
      subst hy hm hd
      have hbig := digitsToNat_lt ys c1
      rw [c2] at hbig
      norm_num at hbig
      exact ⟨ys, ms, ds, heq, c2, rfl, by omega, c7, c8, c12, c13⟩
    · exact Option.noConfusion h
  · exact Option.noConfusion h

/-- C6: with the validation time rendered as `strftimeYmd ty tm td` for a
valid Gregorian date `(ty, tm, td)` with a four-digit year,
`is_valid_expiration_date` accepts exactly the empty string, the string
`"."`, and the canonical `YYYY-MM-DD` renderings of valid dates strictly
after the validation date; every other string — in particular every
malformed, past or present-day date string — is rejected. -/
theorem C6_expiration_date (ty tm td : Nat)
    (hty1 : 1000 ≤ ty) (hty2 : ty ≤ 9999) (htm1 : 1 ≤ tm) (htm2 : tm ≤ 12)
    (htd1 : 1 ≤ td) (htd2 : td ≤ daysInMonth ty tm) (s : String) :
    is_valid_expiration_date (strftimeYmd ty tm td) s = true
      ↔ (s = "" ∨ s = "." ∨
          ∃ y m d : Nat, 1000 ≤ y ∧ y ≤ 9999 ∧ 1 ≤ m ∧ m ≤ 12 ∧
            1 ≤ d ∧ d ≤ daysInMonth y m ∧ s = strftimeYmd y m d ∧
            ty * 10000 + tm * 100 + td < y * 10000 + m * 100 + d) := by
  have htm99 : tm ≤ 99 := by omega
  have htd99 : td ≤ 99 := by
    have := daysInMonth_le ty tm
    omega
  by_cases h1 : s = ""
  · subst h1
    exact iff_of_true rfl (Or.inl rfl)
  by_cases h2 : s = "."
  · subst h2
    exact iff_of_true rfl (Or.inr (Or.inl rfl))
  unfold is_valid_expiration_date
  rw [if_neg (by simp [h1, h2])]
  rcases hp : strptimeYmd s with _ | ⟨y0, m0, d0⟩
  · dsimp only
    refine iff_of_false (by simp) ?_
    rintro (habs | habs | ⟨y, m, d, hy1, hy2, hm1, hm2, hd1, hd2, rfl, hfut⟩)
    · exact h1 habs
    · exact h2 habs
    · rw [strptime_strftime y m d hy1 hy2 hm1 hm2 hd1 hd2] at hp
      exact Option.noConfusion hp
  · dsimp only
    obtain ⟨ys, ms, ds, hsplit, hlen4, hysval, hy9999, hm1, hm2, hd1, hd2⟩ :=
      strptime_some_elim s y0 m0 d0 hp
    by_cases hr : s = strftimeYmd y0 m0 d0
    · rw [if_neg (fun hne => hne hr)]
      have hys : ys = glibcYear y0 := by
        have hsp := splitOnDash_strftime y0 m0 d0
        rw [← hr, hsplit] at hsp
        simp only [List.cons.injEq, and_true] at hsp
        exact hsp.1
      have hy1000 : 1000 ≤ y0 := by
        by_contra hlt
        have hle3 := glibcYear_length_le y0 (by omega)
        rw [← hys] at hle3
        omega
      have hm99 : m0 ≤ 99 := by omega
      have hd99 : d0 ≤ 99 := by
        have := daysInMonth_le y0 m0
        omega
      rw [hr]
      have hle := strftime_le_iff y0 m0 d0 ty tm td hy1000 hy9999 hm99 hd99
        hty1 hty2 htm99 htd99
      by_cases hfut : ty * 10000 + tm * 100 + td < y0 * 10000 + m0 * 100 + d0
      · have hfalse : pyStrLe (strftimeYmd y0 m0 d0) (strftimeYmd ty tm td) = false := by
          cases hb : pyStrLe (strftimeYmd y0 m0 d0) (strftimeYmd ty tm td)
          · rfl
          · exact absurd (hle.mp hb) (by omega)
        rw [hfalse]
        rw [if_neg (by simp)]
        exact iff_of_true rfl (Or.inr (Or.inr
          ⟨y0, m0, d0, hy1000, hy9999, hm1, hm2, hd1, hd2, rfl, hfut⟩))
      · have htrue : pyStrLe (strftimeYmd y0 m0 d0) (strftimeYmd ty tm td) = true :=
          hle.mpr (by omega)
        rw [htrue, if_pos rfl]
        refine iff_of_false (by simp) ?_
        rintro (habs | habs | ⟨y, m, d, hy1, hy2, hm1a, hm2a, hd1a, hd2a, heq, hf⟩)
        · exact strftime_ne_empty y0 m0 d0 hy1000 hy9999 habs
        · exact strftime_ne_dot y0 m0 d0 hy1000 hy9999 habs
        · have hrt := strptime_strftime y m d hy1 hy2 hm1a hm2a hd1a hd2a
          rw [← heq, strptime_strftime y0 m0 d0 hy1000 hy9999 hm1 hm2 hd1 hd2] at hrt
          injection hrt with hrt'
          injection hrt' with he1 hrt''
          injection hrt'' with he2 he3
          omega
    · rw [if_pos hr]
      refine iff_of_false (by simp) ?_
      rintro (habs | habs | ⟨y, m, d, hy1, hy2, hm1a, hm2a, hd1a, hd2a, heq, hf⟩)
      · exact h1 habs
      · exact h2 habs
      · rw [heq, strptime_strftime y m d hy1 hy2 hm1a hm2a hd1a hd2a] at hp
        injection hp with hp'
        injection hp' with he1 hp''
        injection hp'' with he2 he3
        subst he1 he2 he3
        exact hr heq

theorem C6_expiration_date_witness :
    (is_valid_expiration_date (strftimeYmd 2026 10 12) "2027-01-01" = true
      ↔ (("2027-01-01" : String) = "" ∨ ("2027-01-01" : String) = "." ∨
          ∃ y m d : Nat, 1000 ≤ y ∧ y ≤ 9999 ∧ 1 ≤ m ∧ m ≤ 12 ∧
            1 ≤ d ∧ d ≤ daysInMonth y m ∧
            ("2027-01-01" : String) = strftimeYmd y m d ∧
            2026 * 10000 + 10 * 100 + 12 < y * 10000 + m * 100 + d))
    ∧ is_valid_expiration_date (strftimeYmd 2026 10 12) "2027-01-01" = true :=
  ⟨C6_expiration_date 2026 10 12 (by norm_num) (by norm_num) (by norm_num)
      (by norm_num) (by norm_num) (by decide) "2027-01-01",
   by decide⟩
